import Mathlib

/-!
Verification of the generative/simulation engine of
`src/final-prod/nn-animation-final-prod.js` (a multi-layer animated
network of nodes, edges and pulses drawn on canvas layers).

Shallow embedding conventions used throughout this development:

* JS numbers that only ever hold machine-representable values (positions,
  distances, configuration constants) are modelled as `ℚ` where the code is
  effectively exact arithmetic, and as `ℝ` for the trigonometric motion
  model (`Math.cos`/`Math.sin`/`Math.PI`), where float rounding is
  abstracted to exact real arithmetic ("within floating-point tolerance"
  in the spec becomes exact equality in the real model).
* `Math.hypot dx dy` is `√(dx² + dy²)`; since `hypot` is nonnegative and
  the code only ever compares it against nonnegative thresholds
  (`this.linkDistanceMax ≥ 80`, `r > 0`), comparisons `hypot > max` and
  `hypot === 0` are embedded as the equivalent squared comparisons
  `dx² + dy² > max²` and `dx² + dy² = 0`, keeping the graph builders
  computable over `ℚ`.  Theorems about edge lengths are stated with
  `Real.sqrt` of the squared distance, i.e. about the Euclidean distance
  itself.
* `Math.random()`-driven choices (the shuffled visit order, the random
  weight jitter feeding `Array.prototype.sort`, the Poisson-disc candidate
  offsets, the random active-index pick) are universally quantified inputs:
  an arbitrary visit order `order : List ℕ`, an arbitrary comparator
  `cmp : … → Bool` standing for the jittered-weight comparator, arbitrary
  candidate streams.  Every theorem proved for all such inputs in
  particular covers the randomized run of the source.
* The engine's unbounded `while` loop in `poisson` is embedded with an
  explicit event list (fuel); invariants are proved for every prefix of
  every run, which covers the terminating runs of the source.
-/

namespace NNAnim

/-! ## CONFIG constants (source lines 15-101) -/

def MAX_LINKS_DYNAMIC : ℕ := 6
def MAX_LINKS_STATIC : ℕ := 5
def BG_LINK_MAX_DEGREE : ℕ := 4
def PULSE_MAX_ACTIVE : ℕ := 4
def PULSE_POOL_SIZE : ℕ := 12
def PULSE_SPEED : ℚ := 500
def PULSE_SPAWN_EVERY_MS : ℚ := 1000
def BASE_PULSE_MAX_ACTIVE : ℚ := 1
def BASE_NODE_COUNT : ℚ := 70
def BASE_BG_NODE_COUNT : ℚ := 70
def NODE_COUNT : ℤ := 100
def BG_NODE_COUNT : ℤ := 60
def MOBILE_SCALE : ℚ := 9 / 10
def BASE_AREA : ℚ := 1440 * 900

/-- The source's `clamp(v, a, b)` helper (line 108):
`v < a ? a : (v > b ? b : v)`, here at integer values. -/
def clampZ (v a b : ℤ) : ℤ := if v < a then a else if b < v then b else v

/-- JavaScript `Math.round` on an exact rational: round half toward +∞,
i.e. `⌊q + 1/2⌋`. -/
def jsRound (q : ℚ) : ℤ := ⌊q + 1 / 2⌋

/-! ## Graph builder (`_buildLinks`, source lines 497-553, and
`_buildBgLinks`, lines 555-580)

Node positions are taken as exact rationals (every JS float is rational).
`dist2 a b` is the squared `Math.hypot` of the coordinate differences. -/

/-- A 2-D point: the `(x, y)` coordinates of a foreground or background
node as read by the graph builders. -/
structure Pt where
  x : ℚ
  y : ℚ
deriving DecidableEq

instance : Inhabited Pt := ⟨⟨0, 0⟩⟩

/-- Squared Euclidean distance, i.e. `Math.hypot(a.x-b.x, a.y-b.y)²`. -/
def dist2 (a b : Pt) : ℚ := (a.x - b.x) * (a.x - b.x) + (a.y - b.y) * (a.y - b.y)

/-- One entry of the `candidates` array in `_buildLinks`: the candidate
neighbour index `j` and the squared distance.  The random `weight` field
is not stored; the weight-descending `sort` comparator is abstracted as an
arbitrary boolean comparator parameter. -/
structure Cand where
  j : ℕ
  d2 : ℚ
deriving DecidableEq

/-- A foreground link `{ai, bi, d}` (source line 537), with the squared
cached distance `d2` in place of the float `d = dist`. -/
structure Link where
  ai : ℕ
  bi : ℕ
  d2 : ℚ
deriving DecidableEq

/-- The normalized unordered pair used as the dedup key
`` i < j ? `${i}-${j}` : `${j}-${i}` `` (source lines 514, 532). -/
def pairKey (i j : ℕ) : ℕ × ℕ := if i < j then (i, j) else (j, i)

/-- Insert an element into a list, before the first element it compares
`le` to. -/
def insertBy {α : Type} (le : α → α → Bool) (a : α) : List α → List α
  | [] => [a]
  | b :: l => if le a b then a :: b :: l else b :: insertBy le a l

/-- A comparator-driven sort (insertion sort).  `Array.prototype.sort`
runs an implementation-defined comparison sort; since the comparators
used by the source are random-jitter weights and enter the embedding as
arbitrary boolean relations, any comparator sort represents the source's
reordering, and this structural one keeps the builders kernel-computable. -/
def sortBy {α : Type} (le : α → α → Bool) : List α → List α
  | [] => []
  | a :: l => insertBy le a (sortBy le l)

/-- Degree cap by role (source lines 509, 521, 534-535):
`movingFlags[i] ? MAX_LINKS_DYNAMIC : MAX_LINKS_STATIC`. -/
def linkCap (flags : List Bool) (i : ℕ) : ℕ :=
  if flags.getD i false then MAX_LINKS_DYNAMIC else MAX_LINKS_STATIC

/-- Mutable state of the `_buildLinks` loop: the `degrees` array, the
`seen` set of normalized pairs, and the accumulated `links`. -/
structure BuildSt where
  degrees : ℕ → ℕ
  seen : List (ℕ × ℕ)
  links : List Link

/-- The candidate-collection inner loop of `_buildLinks` (source lines
512-525) for the node `i`: all `j ≠ i`, pair not seen, within link
distance (and not at distance zero), with `j` under its own cap. -/
def candidatesFor (nodes : List Pt) (flags : List Bool) (maxDist : ℚ)
    (st : BuildSt) (i : ℕ) : List Cand :=
  (List.range nodes.length).filterMap fun j =>
    if j = i then none
    else if pairKey i j ∈ st.seen then none
    else if maxDist * maxDist < dist2 (nodes.getD i default) (nodes.getD j default) ∨
        dist2 (nodes.getD i default) (nodes.getD j default) = 0 then none
    else if linkCap flags j ≤ st.degrees j then none
    else some ⟨j, dist2 (nodes.getD i default) (nodes.getD j default)⟩

/-- The greedy connection loop of `_buildLinks` (source lines 530-540)
over the weight-sorted candidate list: re-check the dedup set and both
endpoint caps, then push the link and bump both degrees. -/
def pushCands (flags : List Bool) (i : ℕ) (sorted : List Cand)
    (st : BuildSt) : BuildSt :=
  sorted.foldl
    (fun st1 e =>
      if pairKey i e.j ∈ st1.seen then st1
      else if linkCap flags i ≤ st1.degrees i ∨ linkCap flags e.j ≤ st1.degrees e.j then st1
      else
        { degrees := fun k =>
            st1.degrees k + (if k = i then 1 else 0) + (if k = e.j then 1 else 0),
          seen := pairKey i e.j :: st1.seen,
          links := st1.links ++ [⟨i, e.j, e.d2⟩] })
    st

/-- One iteration of the outer `for (const i of indices)` loop of
`_buildLinks` (source lines 506-541).  `cmp i` is the (randomly jittered)
weight comparator used by `candidates.sort` at this iteration. -/
def buildLinksStep (nodes : List Pt) (flags : List Bool) (maxDist : ℚ)
    (cmp : ℕ → Cand → Cand → Bool) (st : BuildSt) (i : ℕ) : BuildSt :=
  if linkCap flags i ≤ st.degrees i then st
  else pushCands flags i (sortBy (cmp i) (candidatesFor nodes flags maxDist st i)) st

/-- The whole of `_buildLinks` (source lines 497-542): fold the per-node
step over the shuffled index order, starting from zero degrees, empty
`seen` set and no links. -/
def buildLinks (nodes : List Pt) (flags : List Bool) (maxDist : ℚ)
    (cmp : ℕ → Cand → Cand → Bool) (order : List ℕ) : List Link :=
  (order.foldl (buildLinksStep nodes flags maxDist cmp)
    { degrees := fun _ => 0, seen := [], links := [] }).links

instance : Inhabited Link := ⟨⟨0, 0, 0⟩⟩

/-- The dynamic/static partition of the built links (source lines
543-552): a link index is dynamic when either endpoint carries a moving
flag. -/
def dynamicLinkIdxs (flags : List Bool) (links : List Link) : List ℕ :=
  (List.range links.length).filter fun idx =>
    flags.getD (links.getD idx default).ai false ∨ flags.getD (links.getD idx default).bi false

/-! ## Background graph builder (`_buildBgLinks`, source lines 555-580) -/

/-- A background edge `{ai, bi, weight}` (source line 570); as with
`Link`, the random weight is abstracted into the comparator and the
squared construction-time distance is kept instead. -/
structure BgEdge where
  ai : ℕ
  bi : ℕ
  d2 : ℚ
deriving DecidableEq

instance : Inhabited BgEdge := ⟨⟨0, 0, 0⟩⟩

/-- The background degree cap
`Math.max(1, Math.min(BG_LINK_MAX_DEGREE, MAX_LINKS_STATIC))`
(source line 557). -/
def bgDegreeCap : ℕ := max 1 (min BG_LINK_MAX_DEGREE MAX_LINKS_STATIC)

/-- The ordered index pairs `(i, j)`, `i < j < m`, enumerated by the two
nested loops of `_buildBgLinks` (source lines 561-563). -/
def bgPairs (m : ℕ) : List (ℕ × ℕ) :=
  (List.range m).flatMap fun i => (List.range' (i + 1) (m - (i + 1))).map fun j => (i, j)

/-- The candidate edge list of `_buildBgLinks` (source lines 561-572):
every ordered pair within the background link distance (and not at
distance zero). -/
def bgCandidateEdges (bgNodes : List Pt) (maxDist : ℚ) : List BgEdge :=
  (bgPairs bgNodes.length).filterMap fun p =>
    if maxDist * maxDist < dist2 (bgNodes.getD p.1 default) (bgNodes.getD p.2 default) ∨
        dist2 (bgNodes.getD p.1 default) (bgNodes.getD p.2 default) = 0 then none
    else some ⟨p.1, p.2, dist2 (bgNodes.getD p.1 default) (bgNodes.getD p.2 default)⟩

/-- The greedy keep/skip step of `_buildBgLinks` (source lines 575-579):
skip the edge when either endpoint reached the degree cap, otherwise keep
it and bump both degrees. -/
def bgGreedyStep (st : (ℕ → ℕ) × List BgEdge) (e : BgEdge) : (ℕ → ℕ) × List BgEdge :=
  if bgDegreeCap ≤ st.1 e.ai ∨ bgDegreeCap ≤ st.1 e.bi then st
  else
    (fun k => st.1 k + (if k = e.ai then 1 else 0) + (if k = e.bi then 1 else 0),
     st.2 ++ [e])

/-- The whole of `_buildBgLinks` (source lines 555-580): sort the
candidate edges by the jittered-weight comparator `cmp`, then greedily
keep every edge whose two endpoints are still under `bgDegreeCap`. -/
def buildBgLinks (bgNodes : List Pt) (maxDist : ℚ) (cmp : BgEdge → BgEdge → Bool) :
    List BgEdge :=
  ((sortBy cmp (bgCandidateEdges bgNodes maxDist)).foldl bgGreedyStep
    (fun _ => 0, [])).2

/-- Number of edges of `ls` incident to node `k` (the quantity bounded by
the degree caps). -/
def incCount (k : ℕ) (ls : List Link) : ℕ :=
  ls.countP fun L => L.ai = k ∨ L.bi = k

/-- Number of background edges of `ls` incident to node `k`. -/
def bgIncCount (k : ℕ) (ls : List BgEdge) : ℕ :=
  ls.countP fun L => L.ai = k ∨ L.bi = k

/-! ## Poisson-disc sampler (`poisson`, source lines 136-188)

The sampler's parameters.  The source computes `cell = r / Math.sqrt(2)`;
since `√2` is irrational, the (float) cell size is kept as an explicit
field `cell`, and the two facts the algorithm needs from the value
`r / √2` — the cell diagonal is at most `r` (`2·cell² ≤ r²`) and a point
within distance `r` is at most two cells away (`r ≤ 2·cell`) — become
hypotheses of the spacing theorem, both satisfied exactly by `r / √2`.
Candidate points (`s.x + cos(a)·rr`, …) and the random active-index pick
are arbitrary inputs per step. -/
structure PDParams where
  width : ℚ
  height : ℚ
  r : ℚ
  cell : ℚ
deriving DecidableEq

/-- A produced sample point. -/
structure Sample where
  x : ℚ
  y : ℚ
deriving DecidableEq

instance : Inhabited Sample := ⟨⟨0, 0⟩⟩

/-- Squared distance between two samples (`dx*dx + dy*dy`, source line
154-155). -/
def sdist2 (a b : Sample) : ℚ := (a.x - b.x) * (a.x - b.x) + (a.y - b.y) * (a.y - b.y)

/-- Grid width `Math.ceil(width / cell)` (source line 139). -/
def gridW (P : PDParams) : ℕ := (Int.ceil (P.width / P.cell)).toNat

/-- Grid height `Math.ceil(height / cell)` (source line 140). -/
def gridH (P : PDParams) : ℕ := (Int.ceil (P.height / P.cell)).toNat

/-- Bounds check `x >= 0 && x < width && y >= 0 && y < height` (source
line 145). -/
def inBounds (P : PDParams) (s : Sample) : Bool :=
  decide (0 ≤ s.x) && decide (s.x < P.width) && decide (0 ≤ s.y) && decide (s.y < P.height)

/-- Column index `Math.floor(x / cell)` of a point. -/
def cellX (P : PDParams) (s : Sample) : ℤ := ⌊s.x / P.cell⌋

/-- Row index `Math.floor(y / cell)` of a point. -/
def cellY (P : PDParams) (s : Sample) : ℤ := ⌊s.y / P.cell⌋

/-- Linear grid index `Math.floor(y/cell) * gridW + Math.floor(x/cell)`
(source line 146); `toNat` is faithful because the function is only ever
applied to in-bounds points, whose cell indices are nonnegative. -/
def gridIndex (P : PDParams) (s : Sample) : ℕ :=
  (cellY P s).toNat * gridW P + (cellX P s).toNat

/-- The loop range `max(0, g-2) … min(lim-1, g+2)` of `farEnough` (source
lines 150-151); `ℕ` subtraction is truncated, which is exactly the
`max(0, ·)` clamp. -/
def neighborRange (g lim : ℕ) : List ℕ :=
  List.range' (g - 2) (min (lim - 1) (g + 2) + 1 - (g - 2))

/-- The 5×5-neighbourhood rejection test `farEnough` (source lines
147-159): every occupied neighbouring grid cell must hold a sample at
squared distance ≥ r² (the source returns `false` on `< r*r`). -/
def farEnough (P : PDParams) (grid : ℕ → Option Sample) (c : Sample) : Bool :=
  (neighborRange (cellY P c).toNat (gridH P)).all fun j =>
    (neighborRange (cellX P c).toNat (gridW P)).all fun i =>
      (grid (j * gridW P + i)).all fun s => decide (P.r * P.r ≤ sdist2 s c)

/-- The sampler's mutable state: produced `samples`, the `active`
frontier, and the occupancy `grid`. -/
structure PDState where
  samples : List Sample
  active : List Sample
  grid : ℕ → Option Sample

/-- The `addSample` helper (source lines 160-166): record the sample, add
it to the frontier and write it into its grid cell. -/
def addSample (P : PDParams) (st : PDState) (s : Sample) : PDState :=
  { samples := st.samples ++ [s],
    active := st.active ++ [s],
    grid := fun idx => if idx = gridIndex P s then some s else st.grid idx }

/-- The initial state: the region's center seeded unconditionally (source
line 169). -/
def pdInit (P : PDParams) : PDState :=
  addSample P ⟨[], [], fun _ => none⟩ ⟨P.width / 2, P.height / 2⟩

/-- The inner `for (n = 0; n < k; n++)` candidate loop (source lines
174-184): accept the first of the `k` generated candidates that is
in-bounds and far enough from its grid neighbourhood. -/
def firstOk (P : PDParams) (grid : ℕ → Option Sample) (cands : List Sample) :
    Option Sample :=
  cands.find? fun c => inBounds P c && farEnough P grid c

/-- One iteration of the `while (active.length)` loop (source lines
170-186): pick an active sample (index `pick % active.length`, standing
for `(Math.random() * active.length) | 0`), try the step's candidate
points, and on failure splice the picked sample out of the frontier. -/
def pdStep (P : PDParams) (st : PDState) (pick : ℕ) (cands : List Sample) : PDState :=
  if st.active.isEmpty then st
  else
    match firstOk P st.grid cands with
    | some c => addSample P st c
    | none => { st with active := st.active.eraseIdx (pick % st.active.length) }

/-- A fuel-indexed run of the sampler: each event carries the step's
random pick and its candidate points. -/
def pdRun (P : PDParams) (evts : List (ℕ × List Sample)) : PDState :=
  evts.foldl (fun st e => pdStep P st e.1 e.2) (pdInit P)

/-! ## Motion model (the node部 of `_update`, source lines 729-805)

Real-valued: `Math.cos`/`Math.sin`/`Math.PI` become `Real.cos`,
`Real.sin`, `Real.pi`.  The JS remainder `%` truncates toward zero, hence
`jsTrunc`/`jsFmod` below. -/

/-- Truncation toward zero, as performed by the JS `%` operator on the
quotient. -/
noncomputable def jsTrunc (y : ℝ) : ℤ := if 0 ≤ y then ⌊y⌋ else ⌈y⌉

/-- The JS remainder `x % d` (sign follows `x`): `x - d * trunc (x / d)`. -/
noncomputable def jsFmod (x d : ℝ) : ℝ := x - d * jsTrunc (x / d)

/-- The motion-related configuration fields read by `_update`.  The real
`CONFIG` carries no `ELLIPSE_*_DIRECTION` / `*_PHASE_OFFSET_TURNS` /
`INITIAL_GLOBAL_PHASE_TURNS` entries, so the `|| 1` and `|| 0` fallbacks
in the source make those factors `1` and `0`; they are inlined as such.
`midZMin` is `PARALLAX_BANDS[1].zMin` and the heading angles are the
precomputed `headingRad` fields (source lines 130-132). -/
structure MotionConfig where
  LOOP_DURATION_MS : ℝ
  ELLIPSE_NEAR_CYCLES : ℝ
  ELLIPSE_MID_CYCLES : ℝ
  ELLIPSE_RADIUS_NEAR_X : ℝ
  ELLIPSE_RADIUS_NEAR_Y : ℝ
  ELLIPSE_RADIUS_MID_X : ℝ
  ELLIPSE_RADIUS_MID_Y : ℝ
  nearHeadingRad : ℝ
  midHeadingRad : ℝ
  midZMin : ℝ
  startPhase : ℝ

/-- The concrete configuration of the source file (lines 44-78):
28 s loop, one ellipse cycle per loop in each band, radii 80/30 and
40/15, headings 20° and 160°, mid band starting at z = 0.4, and
`this._startPhase = 0`. -/
noncomputable def sourceMotionConfig : MotionConfig :=
  { LOOP_DURATION_MS := 28000
    ELLIPSE_NEAR_CYCLES := 1
    ELLIPSE_MID_CYCLES := 1
    ELLIPSE_RADIUS_NEAR_X := 80
    ELLIPSE_RADIUS_NEAR_Y := 30
    ELLIPSE_RADIUS_MID_X := 40
    ELLIPSE_RADIUS_MID_Y := 15
    nearHeadingRad := 20 * Real.pi / 180
    midHeadingRad := 160 * Real.pi / 180
    midZMin := 4 / 10
    startPhase := 0 }

/-- A foreground node as touched by the motion step: current position,
depth, origin, and the per-node seed phase (source lines 470-478). -/
structure MNode where
  x : ℝ
  y : ℝ
  z : ℝ
  ox : ℝ
  oy : ℝ
  seedPhase : ℝ

instance : Inhabited MNode := ⟨⟨0, 0, 0, 0, 0, 0⟩⟩

/-- The per-frame base loop angle (source lines 733-735):
`((now - loopStart) % LOOP_DURATION_MS) / LOOP_DURATION_MS * 2π
 + startPhase`. -/
noncomputable def baseTheta (cfg : MotionConfig) (loopStart now : ℝ) : ℝ :=
  jsFmod (now - loopStart) cfg.LOOP_DURATION_MS / cfg.LOOP_DURATION_MS * (2 * Real.pi)
    + cfg.startPhase

/-- The per-node elliptical displacement of one moving node (source lines
776-805), with `θ` the frame's base loop angle: the band (near when
`z < PARALLAX_BANDS[1].zMin`, else mid) selects cycle count, radii and
heading; the seed phase rotates the node's point on the ellipse via the
angle-addition forms `cos θ·cos s − sin θ·sin s` / `sin θ·cos s +
cos θ·sin s`; the offset is then rotated by the band heading and added to
the origin. -/
noncomputable def updateMovingNode (cfg : MotionConfig) (minDim θ : ℝ) (n : MNode) :
    MNode :=
  let nearTheta := θ * cfg.ELLIPSE_NEAR_CYCLES
  let midTheta := θ * cfg.ELLIPSE_MID_CYCLES
  let baseScale := minDim / 900
  let cosSeed := Real.cos n.seedPhase
  let sinSeed := Real.sin n.seedPhase
  if n.z < cfg.midZMin then
    let c := Real.cos nearTheta * cosSeed - Real.sin nearTheta * sinSeed
    let s := Real.sin nearTheta * cosSeed + Real.cos nearTheta * sinSeed
    let xOff := cfg.ELLIPSE_RADIUS_NEAR_X * baseScale * c
    let yOff := cfg.ELLIPSE_RADIUS_NEAR_Y * baseScale * s
    { n with
      x := n.ox + (Real.cos cfg.nearHeadingRad * xOff - Real.sin cfg.nearHeadingRad * yOff)
      y := n.oy + (Real.sin cfg.nearHeadingRad * xOff + Real.cos cfg.nearHeadingRad * yOff) }
  else
    let c := Real.cos midTheta * cosSeed - Real.sin midTheta * sinSeed
    let s := Real.sin midTheta * cosSeed + Real.cos midTheta * sinSeed
    let xOff := cfg.ELLIPSE_RADIUS_MID_X * baseScale * c
    let yOff := cfg.ELLIPSE_RADIUS_MID_Y * baseScale * s
    { n with
      x := n.ox + (Real.cos cfg.midHeadingRad * xOff - Real.sin cfg.midHeadingRad * yOff)
      y := n.oy + (Real.sin cfg.midHeadingRad * xOff + Real.cos cfg.midHeadingRad * yOff) }

/-- The node loop of `_update` (source lines 752, 776-805): compute
`minDim = max(1, min(width, height))` and the base angle, then recompute
every moving node's position from its origin; nodes without the moving
flag are untouched (`continue`). -/
noncomputable def updateNodes (cfg : MotionConfig) (width height loopStart now : ℝ)
    (nodes : List MNode) (flags : List Bool) : List MNode :=
  let minDim := max 1 (min width height)
  let θ := baseTheta cfg loopStart now
  nodes.mapIdx fun i n => if flags.getD i false then updateMovingNode cfg minDim θ n else n

/-! ## Responsive layout and resize (`_applyResponsiveScaling`, source
lines 342-351, `_getTargetCounts`, lines 441-449, and `_resize`, lines
353-404) -/

/-- The area ratio `kA = Math.max(1, w*h) / BASELINE.AREA` (source lines
343-344). -/
def kAOf (w h : ℚ) : ℚ := max 1 (w * h) / BASE_AREA

/-- `this.nodeMax = clamp(Math.round(BASELINE.NODE_COUNT * kA), 16,
CONFIG.NODE_COUNT)` (source line 346). -/
def nodeMaxOf (w h : ℚ) : ℤ := clampZ (jsRound (BASE_NODE_COUNT * kAOf w h)) 16 NODE_COUNT

/-- `this.bgNodeMax = clamp(Math.round(BASELINE.BG_NODE_COUNT * kA), 12,
CONFIG.BG_NODE_COUNT)` (source line 347). -/
def bgNodeMaxOf (w h : ℚ) : ℤ :=
  clampZ (jsRound (BASE_BG_NODE_COUNT * kAOf w h)) 12 BG_NODE_COUNT

/-- The mobile density multiplier of `_getTargetCounts` (source line
442): `min(width, height) < 900 ? MOBILE_SCALE : 1.0`. -/
def mobileScaleOf (w h : ℚ) : ℚ := if min w h < 900 then MOBILE_SCALE else 1

/-- Target foreground node count (source line 443):
`Math.max(16, Math.round(this.nodeMax * scale))`. -/
def targetNodeCount (w h : ℚ) : ℤ :=
  max 16 (jsRound ((nodeMaxOf w h : ℚ) * mobileScaleOf w h))

/-- Target background node count (source line 444):
`Math.max(12, Math.round(this.bgNodeMax * scale))`. -/
def targetBgCount (w h : ℚ) : ℤ :=
  max 12 (jsRound ((bgNodeMaxOf w h : ℚ) * mobileScaleOf w h))

/-- A foreground node as touched by `_resize`: current position and
origin (depth and seed phase are never written there and are omitted). -/
structure RNode where
  x : ℚ
  y : ℚ
  ox : ℚ
  oy : ℚ
deriving DecidableEq

instance : Inhabited RNode := ⟨⟨0, 0, 0, 0⟩⟩

/-- Position of a reflowed node, as fed back into `_buildLinks`. -/
def RNode.pt (n : RNode) : Pt := ⟨n.x, n.y⟩

/-- The node-reflow branch structure of `_resize` (source lines 374-399).
`needRebuild` is `first || !nodes.length || counts changed`; when false
(and nodes exist) every node is rescaled by `sx = prevW ? w/prevW : 1`
and `sy = prevH ? h/prevH : 1`; otherwise (when not the first call) the
population is resampled — the result of `_setupNodesEven`, which draws
fresh random Poisson points, enters as the opaque inputs
`resampledNodes` / `resampledBg`. -/
def resizeReflow (first : Bool) (w h prevW prevH : ℚ)
    (nodes : List RNode) (bgNodes : List Pt)
    (resampledNodes : List RNode) (resampledBg : List Pt) :
    List RNode × List Pt :=
  let needRebuild : Prop :=
    first = true ∨ nodes.length = 0 ∨ (nodes.length : ℤ) ≠ targetNodeCount w h ∨
      (bgNodes.length : ℤ) ≠ targetBgCount w h
  if ¬needRebuild ∧ nodes.length ≠ 0 then
    let sx := if prevW = 0 then 1 else w / prevW
    let sy := if prevH = 0 then 1 else h / prevH
    (nodes.map fun n => ⟨n.x * sx, n.y * sy, n.ox * sx, n.oy * sy⟩,
     bgNodes.map fun b => ⟨b.x * sx, b.y * sy⟩)
  else if first = false then (resampledNodes, resampledBg)
  else (nodes, bgNodes)

/-- The full outcome of the reflow part of `_resize`: nodes, background
nodes, and the freshly rebuilt edge sets (`this._buildLinks()`;
`this._buildBgLinks()`, source lines 393-394 and 397-398). -/
structure ResizeResult where
  nodes : List RNode
  bgNodes : List Pt
  links : List Link
  bgLinks : List BgEdge

/-- `_resize` (node/edge part, source lines 374-399): reflow or resample
the populations, then rebuild both edge sets from the resulting
positions.  `maxDist` / `bgMaxDist` are the responsive link-distance
caps in force and `cmp` / `bgCmp` / `order` the randomness of the two
builders. -/
def resizeStep (first : Bool) (w h prevW prevH : ℚ)
    (nodes : List RNode) (bgNodes : List Pt)
    (resampledNodes : List RNode) (resampledBg : List Pt)
    (flags : List Bool) (maxDist bgMaxDist : ℚ)
    (cmp : ℕ → Cand → Cand → Bool) (bgCmp : BgEdge → BgEdge → Bool)
    (order : List ℕ) : ResizeResult :=
  let p := resizeReflow first w h prevW prevH nodes bgNodes resampledNodes resampledBg
  { nodes := p.1
    bgNodes := p.2
    links := buildLinks (p.1.map RNode.pt) flags maxDist cmp order
    bgLinks := buildBgLinks p.2 bgMaxDist bgCmp }

/-! ## Pulse scheduler (`ObjectPool`, source lines 191-211; pulse part of
`_update`, lines 811-852; `pulseMaxActive` scaling, line 349) -/

/-- A pulse object (source line 264): the referenced link index, progress
`t`, active flag, and the cached edge length `dist`. -/
structure Pulse where
  linkIndex : ℤ
  t : ℚ
  active : Bool
  dist : ℚ
deriving DecidableEq

/-- The pool's `createFn` (source line 264):
`{ linkIndex: -1, t: 0, active: false, dist: 1 }`. -/
def createPulse : Pulse := ⟨-1, 0, false, 1⟩

/-- The pool's `resetFn` (source line 265): overwrite all four fields
back to the creation values. -/
def resetPulse (_p : Pulse) : Pulse := ⟨-1, 0, false, 1⟩

/-- The `ObjectPool` free list (source lines 191-211), top of stack at
the head. -/
structure PulsePool where
  pool : List Pulse
deriving DecidableEq

/-- `ObjectPool.get` (source lines 199-206): pop the top free object, or
create a fresh one when the pool is empty — the pool never blocks or
fails. -/
def PulsePool.get (pl : PulsePool) : Pulse × PulsePool :=
  match pl.pool with
  | [] => (createPulse, ⟨[]⟩)
  | o :: rest => (o, ⟨rest⟩)

/-- `ObjectPool.release` (source lines 207-210): reset and push. -/
def PulsePool.release (pl : PulsePool) (o : Pulse) : PulsePool :=
  ⟨resetPulse o :: pl.pool⟩

/-- The engine's pulse state: the pool, the live pulse list (the `pulses`
array up to `pulsesLen`), the responsive `pulseMaxActive` cap and the
spawn timer. -/
structure PulseSt where
  pool : PulsePool
  pulses : List Pulse
  pulseMaxActive : ℤ
  lastPulseSpawn : ℚ
deriving DecidableEq

/-- The engine's initial pulse state (source lines 255, 263-270): a pool
of `PULSE_POOL_SIZE` fresh objects, no live pulses,
`pulseMaxActive = CONFIG.PULSE_MAX_ACTIVE`, `_lastPulseSpawn = 0`. -/
def pulseInit : PulseSt :=
  { pool := ⟨List.replicate PULSE_POOL_SIZE createPulse⟩
    pulses := []
    pulseMaxActive := (PULSE_MAX_ACTIVE : ℤ)
    lastPulseSpawn := 0 }

/-- The link choice of the spawn block (source lines 815-821):
a random dynamic link if any, any random link as fallback, `-1` if the
edge set is empty. -/
def pickLinkIndex (dynLinks : List ℕ) (linksLen pickDyn pickAll : ℕ) : ℤ :=
  if 0 < dynLinks.length then (dynLinks.getD (pickDyn % dynLinks.length) 0 : ℤ)
  else if 0 < linksLen then ((pickAll % linksLen : ℕ) : ℤ)
  else -1

/-- The spawn block of `_update` (source lines 811-837).  When the spawn
interval has elapsed and the live count is under the cap, take an object
from the pool, pick a link (the `Math.random()` picks enter as `pickDyn`
/ `pickAll`), and either activate it with `dist = max(1, hypot(...))`
(`rawDist` is that hypot, taken from the current node positions) or
release it straight back. -/
def spawnPhase (now : ℚ) (dynLinks : List ℕ) (linksLen pickDyn pickAll : ℕ)
    (rawDist : ℚ) (st : PulseSt) : PulseSt :=
  if PULSE_SPAWN_EVERY_MS ≤ now - st.lastPulseSpawn ∧
      (st.pulses.length : ℤ) < st.pulseMaxActive then
    if pickLinkIndex dynLinks linksLen pickDyn pickAll ≠ -1 then
      { st with
        pool := (st.pool.get).2
        pulses := st.pulses ++
          [{ linkIndex := pickLinkIndex dynLinks linksLen pickDyn pickAll, t := 0,
             active := true, dist := max 1 rawDist }]
        lastPulseSpawn := now }
    else { st with pool := ((st.pool.get).2).release (st.pool.get).1 }
  else st

/-- One pulse advanced by one tick (source line 845):
`p.t += tInc / p.dist`. -/
def advancePulse (tInc : ℚ) (p : Pulse) : Pulse := { p with t := p.t + tInc / p.dist }

/-- One iteration of the advance/compaction loop (source lines 842-851):
skip inactive entries, advance the pulse, release it on arrival
(`t ≥ 1`), keep it otherwise. -/
def advanceStep (tInc : ℚ) (acc : List Pulse × PulsePool) (p : Pulse) :
    List Pulse × PulsePool :=
  if p.active = false then acc
  else if 1 ≤ (advancePulse tInc p).t then (acc.1, acc.2.release (advancePulse tInc p))
  else (acc.1 ++ [advancePulse tInc p], acc.2)

/-- The advance/compaction loop of `_update` (source lines 840-852). -/
def advancePulses (tInc : ℚ) (ps : List Pulse) (pool : PulsePool) :
    List Pulse × PulsePool :=
  ps.foldl (advanceStep tInc) ([], pool)

/-- The pulse part of one `_update(dt_ms, now)` tick: spawn, then
advance with `tInc = PULSE_SPEED * (dt_ms / 1000)` (source line 840). -/
def pulseTick (dt_ms now : ℚ) (dynLinks : List ℕ) (linksLen pickDyn pickAll : ℕ)
    (rawDist : ℚ) (st : PulseSt) : PulseSt :=
  let st1 := spawnPhase now dynLinks linksLen pickDyn pickAll rawDist st
  let a := advancePulses (PULSE_SPEED * (dt_ms / 1000)) st1.pulses st1.pool
  { st1 with pulses := a.1, pool := a.2 }

/-- The effect of `_applyResponsiveScaling` on the pulse cap (source line
349): `pulseMaxActive = clamp(Math.round(BASELINE.PULSE_MAX_ACTIVE * kL),
1, CONFIG.PULSE_MAX_ACTIVE)`; `kL = √(area/baseArea)` is irrational and
enters as the parameter `kL`. -/
def resizePulseCap (kL : ℚ) (st : PulseSt) : PulseSt :=
  { st with pulseMaxActive := clampZ (jsRound (BASE_PULSE_MAX_ACTIVE * kL)) 1 (PULSE_MAX_ACTIVE : ℤ) }

/-- An execution event for the pulse subsystem: a simulation tick (with
its clock values, the available links and the tick's random choices) or a
resize (with its length-scale ratio `kL`). -/
inductive PEvent where
  | tick (dt_ms now : ℚ) (dynLinks : List ℕ) (linksLen pickDyn pickAll : ℕ) (rawDist : ℚ)
  | resize (kL : ℚ)
deriving DecidableEq

/-- Apply one event. -/
def pulseEventStep (st : PulseSt) : PEvent → PulseSt
  | PEvent.tick dt_ms now dynLinks linksLen pickDyn pickAll rawDist =>
      pulseTick dt_ms now dynLinks linksLen pickDyn pickAll rawDist st
  | PEvent.resize kL => resizePulseCap kL st

/-- Run the pulse subsystem from the engine's initial state over an
arbitrary event sequence. -/
def pulseRun (evts : List PEvent) : PulseSt :=
  evts.foldl pulseEventStep pulseInit

/-!
# Theorems

## The comparator sort permutes its input
-/

/-- `insertBy` produces a permutation of consing the element. -/
theorem perm_insertBy {α : Type} (le : α → α → Bool) (a : α) (l : List α) :
    (insertBy le a l).Perm (a :: l) := by
  induction l with
  | nil => exact List.Perm.refl _
  | cons b t ih =>
    rw [insertBy]
    split_ifs
    · exact List.Perm.refl _
    · exact (ih.cons b).trans (List.Perm.swap a b t)

/-- `sortBy` permutes its input. -/
theorem perm_sortBy {α : Type} (le : α → α → Bool) (l : List α) :
    (sortBy le l).Perm l := by
  induction l with
  | nil => exact List.Perm.refl _
  | cons a t ih => exact (perm_insertBy le a (sortBy le t)).trans (ih.cons a)

/-- Membership is preserved by `sortBy`. -/
theorem mem_sortBy {α : Type} {le : α → α → Bool} {x : α} {l : List α} :
    x ∈ sortBy le l ↔ x ∈ l :=
  (perm_sortBy le l).mem_iff

/-!
## Foreground graph-builder invariants (claims C2, C6, C7)
-/

/-- Facts true of every entry of the candidate list of `_buildLinks`:
the candidate is a different node, and its recorded squared distance is
the squared endpoint distance, bounded by the squared link-distance cap
and nonzero. -/
theorem mem_candidatesFor {nodes : List Pt} {flags : List Bool} {maxDist : ℚ}
    {st : BuildSt} {i : ℕ} {c : Cand} (h : c ∈ candidatesFor nodes flags maxDist st i) :
    c.j ≠ i ∧ c.d2 = dist2 (nodes.getD i default) (nodes.getD c.j default) ∧
      c.d2 ≤ maxDist * maxDist ∧ c.d2 ≠ 0 := by
  simp only [candidatesFor, List.mem_filterMap, List.mem_range] at h
  obtain ⟨j, _hj, hfj⟩ := h
  split_ifs at hfj with h1 h2 h3 h4
  rw [Option.some_inj] at hfj
  push_neg at h3
  cases hfj
  exact ⟨h1, rfl, h3.1, h3.2⟩

/-- The invariant carried through the `_buildLinks` fold: the `degrees`
array counts incident links exactly, every degree is under its role cap,
every link's normalized pair is in the `seen` set, no link is a self
edge, the normalized pairs are pairwise distinct, and every link's cached
squared distance is the squared endpoint distance, within the cap. -/
structure BuildInv (nodes : List Pt) (flags : List Bool) (maxDist : ℚ)
    (st : BuildSt) : Prop where
  degEq : ∀ k, st.degrees k = incCount k st.links
  degLe : ∀ k, st.degrees k ≤ linkCap flags k
  keysSeen : ∀ L ∈ st.links, pairKey L.ai L.bi ∈ st.seen
  noSelf : ∀ L ∈ st.links, L.ai ≠ L.bi
  keysNodup : (st.links.map fun L => pairKey L.ai L.bi).Nodup
  distOk : ∀ L ∈ st.links,
    L.d2 = dist2 (nodes.getD L.ai default) (nodes.getD L.bi default) ∧
      L.d2 ≤ maxDist * maxDist

/-- The greedy connection loop preserves the builder invariant, for any
candidate list whose entries satisfy the candidate facts. -/
theorem pushCands_inv {nodes : List Pt} {flags : List Bool} {maxDist : ℚ}
    {i : ℕ} {sorted : List Cand} {st : BuildSt}
    (hc : ∀ c ∈ sorted, c.j ≠ i ∧
      c.d2 = dist2 (nodes.getD i default) (nodes.getD c.j default) ∧
      c.d2 ≤ maxDist * maxDist)
    (hst : BuildInv nodes flags maxDist st) :
    BuildInv nodes flags maxDist (pushCands flags i sorted st) := by
  induction sorted generalizing st with
  | nil => exact hst
  | cons e rest ih =>
    have he := hc e (List.mem_cons_self e rest)
    have hrest : ∀ c ∈ rest, c.j ≠ i ∧
        c.d2 = dist2 (nodes.getD i default) (nodes.getD c.j default) ∧
        c.d2 ≤ maxDist * maxDist :=
      fun c hcr => hc c (List.mem_cons_of_mem e hcr)
    rw [pushCands, List.foldl_cons]
    by_cases hseen : pairKey i e.j ∈ st.seen
    · simp only [hseen, if_true]
      exact ih hrest hst
    · by_cases hcap : linkCap flags i ≤ st.degrees i ∨ linkCap flags e.j ≤ st.degrees e.j
      · simp only [hseen, if_false, hcap, if_true]
        exact ih hrest hst
      · simp only [hseen, if_false, hcap, if_true]
        push_neg at hcap
        refine ih hrest ?_
        obtain ⟨hji, hd2, hdle⟩ := he
        constructor
        · intro k
          simp only [incCount, List.countP_append, List.countP_cons, List.countP_nil]
          rw [← incCount, ← hst.degEq k]
          by_cases hki : k = i
          · subst hki
            simp [hji.symm, Ne.symm hji]
          · by_cases hkj : k = e.j
            · subst hkj
              simp [hki, Ne.symm hji]
            · simp [hki, hkj, Ne.symm hki, Ne.symm hkj]
        · intro k
          by_cases hki : k = i
          · subst hki
            simpa [hji.symm, Ne.symm hji] using hcap.1
          · by_cases hkj : k = e.j
            · subst hkj
              simpa [hki] using hcap.2
            · simpa [hki, hkj] using hst.degLe k
        · intro L hL
          rcases List.mem_append.1 hL with hL | hL
          · exact List.mem_cons_of_mem _ (hst.keysSeen L hL)
          · rcases List.mem_singleton.1 hL with rfl
            exact List.mem_cons_self _ _
        · intro L hL
          rcases List.mem_append.1 hL with hL | hL
          · exact hst.noSelf L hL
          · rcases List.mem_singleton.1 hL with rfl
            exact Ne.symm hji
        · rw [List.map_append, List.nodup_append]
          refine ⟨hst.keysNodup, List.nodup_singleton _, ?_⟩
          intro a hmem hb
          rcases List.mem_map.1 hmem with ⟨L, hL, hkey⟩
          rcases List.mem_singleton.1 (by simpa using hb) with rfl
          exact hseen (hkey ▸ hst.keysSeen L hL)
        · intro L hL
          rcases List.mem_append.1 hL with hL | hL
          · exact hst.distOk L hL
          · rcases List.mem_singleton.1 hL with rfl
            exact ⟨hd2, hdle⟩

/-- One outer-loop iteration of `_buildLinks` preserves the builder
invariant. -/
theorem buildLinksStep_inv {nodes : List Pt} {flags : List Bool} {maxDist : ℚ}
    {cmp : ℕ → Cand → Cand → Bool} {st : BuildSt} {i : ℕ}
    (hst : BuildInv nodes flags maxDist st) :
    BuildInv nodes flags maxDist (buildLinksStep nodes flags maxDist cmp st i) := by
  rw [buildLinksStep]
  split_ifs with hcap
  · exact hst
  · refine pushCands_inv (fun c hcm => ?_) hst
    have := mem_candidatesFor (mem_sortBy.1 hcm)
    exact ⟨this.1, this.2.1, this.2.2.1⟩

/-- The builder invariant holds of the final state of `_buildLinks`, for
every visit order. -/
theorem buildLinks_inv (nodes : List Pt) (flags : List Bool) (maxDist : ℚ)
    (cmp : ℕ → Cand → Cand → Bool) (order : List ℕ) :
    BuildInv nodes flags maxDist
      (order.foldl (buildLinksStep nodes flags maxDist cmp)
        { degrees := fun _ => 0, seen := [], links := [] }) := by
  have init : BuildInv nodes flags maxDist
      { degrees := fun _ => 0, seen := [], links := [] } := by
    constructor <;> simp [incCount]
  generalize hst0 : ({ degrees := fun _ => 0, seen := [], links := [] } : BuildSt) = st0
  rw [hst0] at init
  clear hst0
  induction order generalizing st0 with
  | nil => exact init
  | cons i rest ih => exact ih _ (buildLinksStep_inv init)

/-!
## Background graph-builder invariants (claims C2, C6, C7)
-/

/-- Facts true of every candidate edge of `_buildBgLinks`: ordered
endpoints and an in-cap, construction-time squared distance. -/
theorem mem_bgCandidateEdges {bgNodes : List Pt} {maxDist : ℚ} {e : BgEdge}
    (h : e ∈ bgCandidateEdges bgNodes maxDist) :
    e.ai < e.bi ∧
      e.d2 = dist2 (bgNodes.getD e.ai default) (bgNodes.getD e.bi default) ∧
      e.d2 ≤ maxDist * maxDist := by
  simp only [bgCandidateEdges, List.mem_filterMap] at h
  obtain ⟨p, hp, hfp⟩ := h
  split_ifs at hfp with h1
  rw [Option.some_inj] at hfp
  push_neg at h1
  cases hfp
  refine ⟨?_, rfl, h1.1⟩
  simp only [bgPairs, List.mem_flatMap, List.mem_map, List.mem_range] at hp
  obtain ⟨a, _ha, j, hj, hpair⟩ := hp
  rcases List.mem_range'.1 hj with ⟨t, _ht, rfl⟩
  cases hpair
  dsimp only
  omega

/-- Projecting a guarded `filterMap` back onto its source yields a
sublist of the source. -/
theorem map_filterMap_sublist {α β : Type} (f : α → Option β) (g : β → α)
    (hfg : ∀ a e, f a = some e → g e = a) (l : List α) :
    ((l.filterMap f).map g).Sublist l := by
  induction l with
  | nil => simp
  | cons a rest ih =>
    rw [List.filterMap_cons]
    cases hfa : f a with
    | none => exact ih.cons a
    | some e =>
      rw [List.map_cons, hfg a e hfa]
      exact ih.cons₂ a

/-- The ordered index pairs enumerated by the nested loops of
`_buildBgLinks` are pairwise distinct. -/
theorem bgPairs_nodup (m : ℕ) : (bgPairs m).Nodup := by
  rw [bgPairs, List.nodup_flatMap]
  constructor
  · intro i _
    refine List.Nodup.map ?_ (List.nodup_range' _ _)
    intro a b hab
    cases hab
    rfl
  · refine (List.nodup_range m).imp ?_
    intro a b hab
    intro p hpa hpb
    rcases List.mem_map.1 hpa with ⟨j, _, rfl⟩
    rcases List.mem_map.1 hpb with ⟨j2, _, hj2⟩
    cases hj2
    exact hab rfl

/-- The normalized pairs of the `_buildBgLinks` candidate list are
pairwise distinct (each unordered pair is enumerated exactly once by the
two nested loops). -/
theorem bgCandidateEdges_keysNodup (bgNodes : List Pt) (maxDist : ℚ) :
    ((bgCandidateEdges bgNodes maxDist).map fun e => (e.ai, e.bi)).Nodup := by
  refine List.Sublist.nodup ?_ (bgPairs_nodup bgNodes.length)
  rw [bgCandidateEdges]
  refine map_filterMap_sublist _ _ ?_ _
  intro p e hfe
  split_ifs at hfe
  rw [Option.some_inj] at hfe
  cases hfe
  rfl

/-- The invariant carried through the `_buildBgLinks` greedy fold. -/
structure BgInv (bgNodes : List Pt) (maxDist : ℚ) (st : (ℕ → ℕ) × List BgEdge) : Prop where
  degEq : ∀ k, st.1 k = bgIncCount k st.2
  degLe : ∀ k, st.1 k ≤ bgDegreeCap
  ordered : ∀ e ∈ st.2, e.ai < e.bi
  distOk : ∀ e ∈ st.2,
    e.d2 = dist2 (bgNodes.getD e.ai default) (bgNodes.getD e.bi default) ∧
      e.d2 ≤ maxDist * maxDist

/-- One greedy keep/skip step preserves the background invariant. -/
theorem bgGreedyStep_inv {bgNodes : List Pt} {maxDist : ℚ}
    {st : (ℕ → ℕ) × List BgEdge} {e : BgEdge}
    (he : e.ai < e.bi ∧
      e.d2 = dist2 (bgNodes.getD e.ai default) (bgNodes.getD e.bi default) ∧
      e.d2 ≤ maxDist * maxDist)
    (hst : BgInv bgNodes maxDist st) :
    BgInv bgNodes maxDist (bgGreedyStep st e) := by
  rw [bgGreedyStep]
  split_ifs with hcap
  · exact hst
  · push_neg at hcap
    have hne : e.ai ≠ e.bi := Nat.ne_of_lt he.1
    constructor
    · intro k
      simp only [bgIncCount, List.countP_append, List.countP_cons, List.countP_nil]
      rw [← bgIncCount, ← hst.degEq k]
      by_cases hki : k = e.ai
      · subst hki
        simp [hne, Ne.symm hne]
      · by_cases hkj : k = e.bi
        · subst hkj
          simp [hki, Ne.symm hne]
        · simp [hki, hkj, Ne.symm hki, Ne.symm hkj]
    · intro k
      by_cases hki : k = e.ai
      · subst hki
        simpa [hne] using hcap.1
      · by_cases hkj : k = e.bi
        · subst hkj
          simpa [hki] using hcap.2
        · simpa [hki, hkj] using hst.degLe k
    · intro x hx
      rcases List.mem_append.1 hx with hx | hx
      · exact hst.ordered x hx
      · rcases List.mem_singleton.1 hx with rfl
        exact he.1
    · intro x hx
      rcases List.mem_append.1 hx with hx | hx
      · exact hst.distOk x hx
      · rcases List.mem_singleton.1 hx with rfl
        exact ⟨he.2.1, he.2.2⟩

/-- The greedy fold of `_buildBgLinks` preserves the background
invariant, for any edge list whose entries satisfy the candidate facts. -/
theorem bgFold_inv {bgNodes : List Pt} {maxDist : ℚ} :
    ∀ (l : List BgEdge) (st : (ℕ → ℕ) × List BgEdge),
    (∀ e ∈ l, e.ai < e.bi ∧
      e.d2 = dist2 (bgNodes.getD e.ai default) (bgNodes.getD e.bi default) ∧
      e.d2 ≤ maxDist * maxDist) →
    BgInv bgNodes maxDist st → BgInv bgNodes maxDist (l.foldl bgGreedyStep st) := by
  intro l
  induction l with
  | nil => exact fun st _ hst => hst
  | cons e rest ih =>
    intro st hl hst
    rw [List.foldl_cons]
    exact ih _ (fun c hcr => hl c (List.mem_cons_of_mem e hcr))
      (bgGreedyStep_inv (hl e (List.mem_cons_self e rest)) hst)

/-- The greedy fold of `_buildBgLinks` appends a sublist of its input to
the accumulated edges. -/
theorem bgFold_keep :
    ∀ (l : List BgEdge) (st : (ℕ → ℕ) × List BgEdge),
    ∃ keep, (l.foldl bgGreedyStep st).2 = st.2 ++ keep ∧ keep.Sublist l := by
  intro l
  induction l with
  | nil => exact fun st => ⟨[], by simp⟩
  | cons e rest ih =>
    intro st
    rw [List.foldl_cons, bgGreedyStep]
    split_ifs with hcap
    · obtain ⟨keep, heq, hsub⟩ := ih st
      exact ⟨keep, heq, hsub.cons e⟩
    · obtain ⟨keep, heq, hsub⟩ := ih
        (fun k => st.1 k + (if k = e.ai then 1 else 0) + (if k = e.bi then 1 else 0),
         st.2 ++ [e])
      exact ⟨e :: keep, by simpa using heq, hsub.cons₂ e⟩

/-- The facts delivered by the `_buildBgLinks` run: degree caps hold,
edges are ordered pairs with in-cap construction-time distances, and the
edge keys are pairwise distinct. -/
theorem buildBgLinks_facts (bgNodes : List Pt) (maxDist : ℚ) (cmp : BgEdge → BgEdge → Bool) :
    (∀ k, bgIncCount k (buildBgLinks bgNodes maxDist cmp) ≤ bgDegreeCap) ∧
    (∀ e ∈ buildBgLinks bgNodes maxDist cmp, e.ai < e.bi ∧
      e.d2 = dist2 (bgNodes.getD e.ai default) (bgNodes.getD e.bi default) ∧
      e.d2 ≤ maxDist * maxDist) ∧
    ((buildBgLinks bgNodes maxDist cmp).map fun e => (e.ai, e.bi)).Nodup := by
  have hcand : ∀ e ∈ sortBy cmp (bgCandidateEdges bgNodes maxDist), e.ai < e.bi ∧
      e.d2 = dist2 (bgNodes.getD e.ai default) (bgNodes.getD e.bi default) ∧
      e.d2 ≤ maxDist * maxDist :=
    fun e he => mem_bgCandidateEdges (mem_sortBy.1 he)
  have hinit : BgInv bgNodes maxDist ((fun _ => 0 : ℕ → ℕ), ([] : List BgEdge)) := by
    constructor <;> simp [bgIncCount]
  have hinv := bgFold_inv (sortBy cmp (bgCandidateEdges bgNodes maxDist))
    ((fun _ => 0 : ℕ → ℕ), ([] : List BgEdge)) hcand hinit
  refine ⟨fun k => ?_, fun e he => hcand e ?_, ?_⟩
  · rw [buildBgLinks, ← hinv.degEq k]
    exact hinv.degLe k
  · obtain ⟨keep, hkeq, hsub⟩ :=
      bgFold_keep (sortBy cmp (bgCandidateEdges bgNodes maxDist))
        ((fun _ => 0 : ℕ → ℕ), ([] : List BgEdge))
    rw [buildBgLinks, hkeq] at he
    exact hsub.mem (by simpa using he)
  · obtain ⟨keep, hkeq, hsub⟩ :=
      bgFold_keep (sortBy cmp (bgCandidateEdges bgNodes maxDist))
        ((fun _ => 0 : ℕ → ℕ), ([] : List BgEdge))
    rw [buildBgLinks, hkeq]
    simp only [List.nil_append]
    refine List.Sublist.nodup (hsub.map fun e => (e.ai, e.bi)) ?_
    have hperm := (perm_sortBy cmp (bgCandidateEdges bgNodes maxDist)).map
      fun e => (e.ai, e.bi)
    exact hperm.nodup_iff.2 (bgCandidateEdges_keysNodup bgNodes maxDist)

/-- Claim C2 — Degree cap: after any graph build (foreground
`_buildLinks` or background `_buildBgLinks`), every node's incident-edge
count in the produced edge set is at most the cap for that node's role
(`MAX_LINKS_DYNAMIC` for moving nodes, `MAX_LINKS_STATIC` for static
nodes, the background degree cap for background nodes), for every input
node population (and any randomized visit order and sort comparator). -/
theorem claim_C2_degree_caps (nodes : List Pt) (flags : List Bool) (maxDist : ℚ)
    (cmp : ℕ → Cand → Cand → Bool) (order : List ℕ)
    (bgNodes : List Pt) (bgMaxDist : ℚ) (bgCmp : BgEdge → BgEdge → Bool) :
    (∀ k, incCount k (buildLinks nodes flags maxDist cmp order) ≤ linkCap flags k) ∧
    (∀ k, bgIncCount k (buildBgLinks bgNodes bgMaxDist bgCmp) ≤ bgDegreeCap) := by
  constructor
  · intro k
    have hinv := buildLinks_inv nodes flags maxDist cmp order
    rw [buildLinks, ← hinv.degEq k]
    exact hinv.degLe k
  · exact (buildBgLinks_facts bgNodes bgMaxDist bgCmp).1

/-- Claim C6 — No duplicate or self edges: after any graph build
(foreground or background), the produced edge set contains no repeated
unordered pair of node indices (the lists of normalized pairs are
duplicate-free) and no edge whose two endpoints are the same node, for
every input node population. -/
theorem claim_C6_no_dup_or_self_edges (nodes : List Pt) (flags : List Bool) (maxDist : ℚ)
    (cmp : ℕ → Cand → Cand → Bool) (order : List ℕ)
    (bgNodes : List Pt) (bgMaxDist : ℚ) (bgCmp : BgEdge → BgEdge → Bool) :
    (((buildLinks nodes flags maxDist cmp order).map fun L => pairKey L.ai L.bi).Nodup ∧
      ∀ L ∈ buildLinks nodes flags maxDist cmp order, L.ai ≠ L.bi) ∧
    (((buildBgLinks bgNodes bgMaxDist bgCmp).map fun e => (e.ai, e.bi)).Nodup ∧
      ∀ e ∈ buildBgLinks bgNodes bgMaxDist bgCmp, e.ai ≠ e.bi) := by
  have hinv := buildLinks_inv nodes flags maxDist cmp order
  have hbg := buildBgLinks_facts bgNodes bgMaxDist bgCmp
  exact ⟨⟨hinv.keysNodup, fun L hL => hinv.noSelf L hL⟩,
    ⟨hbg.2.2, fun e he => Nat.ne_of_lt (hbg.2.1 e he).1⟩⟩

/-- Claim C7 — Edge length bound: every edge produced by a graph build
has endpoint Euclidean distance, measured at construction time, at most
the configured maximum link distance in force for that build
(`linkDistanceMax` for the foreground, `bgLinkDistanceMax` for the
background), for every input node population.  (Both responsive caps are
clamped to at least 80 resp. 60 in the source, hence the nonnegativity
hypotheses.) -/
theorem claim_C7_edge_length_bound (nodes : List Pt) (flags : List Bool) (maxDist : ℚ)
    (cmp : ℕ → Cand → Cand → Bool) (order : List ℕ)
    (bgNodes : List Pt) (bgMaxDist : ℚ) (bgCmp : BgEdge → BgEdge → Bool)
    (hmax : 0 ≤ maxDist) (hbgmax : 0 ≤ bgMaxDist) :
    (∀ L ∈ buildLinks nodes flags maxDist cmp order,
      Real.sqrt ((dist2 (nodes.getD L.ai default) (nodes.getD L.bi default) : ℚ) : ℝ) ≤
        (maxDist : ℝ)) ∧
    (∀ e ∈ buildBgLinks bgNodes bgMaxDist bgCmp,
      Real.sqrt ((dist2 (bgNodes.getD e.ai default) (bgNodes.getD e.bi default) : ℚ) : ℝ) ≤
        (bgMaxDist : ℝ)) := by
  constructor
  · intro L hL
    have hinv := buildLinks_inv nodes flags maxDist cmp order
    obtain ⟨hd2, hle⟩ := hinv.distOk L hL
    rw [← hd2]
    have hle2 : ((L.d2 : ℚ) : ℝ) ≤ ((maxDist : ℚ) : ℝ) * ((maxDist : ℚ) : ℝ) := by
      rw [← Rat.cast_mul]
      exact_mod_cast hle
    calc Real.sqrt ((L.d2 : ℚ) : ℝ) ≤ Real.sqrt (((maxDist : ℚ) : ℝ) * ((maxDist : ℚ) : ℝ)) :=
          Real.sqrt_le_sqrt hle2
    _ = ((maxDist : ℚ) : ℝ) := Real.sqrt_mul_self (by exact_mod_cast hmax)
  · intro e he
    obtain ⟨_, hd2, hle⟩ := (buildBgLinks_facts bgNodes bgMaxDist bgCmp).2.1 e he
    rw [← hd2]
    have hle2 : ((e.d2 : ℚ) : ℝ) ≤ ((bgMaxDist : ℚ) : ℝ) * ((bgMaxDist : ℚ) : ℝ) := by
      rw [← Rat.cast_mul]
      exact_mod_cast hle
    calc Real.sqrt ((e.d2 : ℚ) : ℝ) ≤ Real.sqrt (((bgMaxDist : ℚ) : ℝ) * ((bgMaxDist : ℚ) : ℝ)) :=
          Real.sqrt_le_sqrt hle2
    _ = ((bgMaxDist : ℚ) : ℝ) := Real.sqrt_mul_self (by exact_mod_cast hbgmax)

/-!
## Poisson-disc spacing (claim C5)
-/

/-- Unfolding of the bounds check (source line 145). -/
theorem inBounds_iff {P : PDParams} {s : Sample} :
    inBounds P s = true ↔ 0 ≤ s.x ∧ s.x < P.width ∧ 0 ≤ s.y ∧ s.y < P.height := by
  simp only [inBounds, Bool.and_eq_true, decide_eq_true_eq]
  tauto

/-- `sdist2` is symmetric. -/
theorem sdist2_comm (a b : Sample) : sdist2 a b = sdist2 b a := by
  rw [sdist2, sdist2]
  ring

/-- Cell coordinates of an in-bounds point are within the grid. -/
theorem cell_bounds {P : PDParams} (hc : 0 < P.cell) {s : Sample}
    (hin : inBounds P s = true) :
    (0 ≤ cellX P s ∧ cellX P s < (gridW P : ℤ)) ∧
      (0 ≤ cellY P s ∧ cellY P s < (gridH P : ℤ)) := by
  obtain ⟨hx0, hxw, hy0, hyh⟩ := inBounds_iff.1 hin
  have hW : 0 < P.width := lt_of_le_of_lt hx0 hxw
  have hH : 0 < P.height := lt_of_le_of_lt hy0 hyh
  have hgw : ((gridW P : ℤ) : ℚ) = ((Int.ceil (P.width / P.cell) : ℤ) : ℚ) := by
    rw [gridW, Int.toNat_of_nonneg]
    positivity
  have hgh : ((gridH P : ℤ) : ℚ) = ((Int.ceil (P.height / P.cell) : ℤ) : ℚ) := by
    rw [gridH, Int.toNat_of_nonneg]
    positivity
  constructor
  · refine ⟨Int.floor_nonneg.2 (by positivity), ?_⟩
    rw [cellX, Int.floor_lt]
    calc s.x / P.cell < P.width / P.cell := by gcongr
    _ ≤ ((Int.ceil (P.width / P.cell) : ℤ) : ℚ) := Int.le_ceil _
    _ = ((gridW P : ℤ) : ℚ) := hgw.symm
  · refine ⟨Int.floor_nonneg.2 (by positivity), ?_⟩
    rw [cellY, Int.floor_lt]
    calc s.y / P.cell < P.height / P.cell := by gcongr
    _ ≤ ((Int.ceil (P.height / P.cell) : ℤ) : ℚ) := Int.le_ceil _
    _ = ((gridH P : ℤ) : ℚ) := hgh.symm

/-- A linear grid index determines row and column when the columns are in
range. -/
theorem linear_index_inj {W a b c d : ℕ} (hb : b < W) (hd : d < W)
    (h : a * W + b = c * W + d) : a = c ∧ b = d := by
  have hW : 0 < W := lt_of_le_of_lt (Nat.zero_le b) hb
  have h1 : b = d := by
    have e1 : (c * W + d) % W = b := by
      rw [← h, Nat.mul_comm a W, Nat.mul_add_mod, Nat.mod_eq_of_lt hb]
    rw [Nat.mul_comm c W, Nat.mul_add_mod, Nat.mod_eq_of_lt hd] at e1
    exact e1.symm
  subst h1
  have h2 : a * W = c * W := by omega
  exact ⟨Nat.eq_of_mul_eq_mul_right hW h2, rfl⟩

/-- In-bounds points with the same grid index occupy the same cell. -/
theorem gridIndex_inj {P : PDParams} (hc : 0 < P.cell) {p q : Sample}
    (hp : inBounds P p = true) (hq : inBounds P q = true)
    (h : gridIndex P p = gridIndex P q) :
    cellX P p = cellX P q ∧ cellY P p = cellY P q := by
  obtain ⟨⟨hpx0, hpxw⟩, ⟨hpy0, _⟩⟩ := cell_bounds hc hp
  obtain ⟨⟨hqx0, hqxw⟩, ⟨hqy0, _⟩⟩ := cell_bounds hc hq
  have hpx : (cellX P p).toNat < gridW P := by omega
  have hqx : (cellX P q).toNat < gridW P := by omega
  obtain ⟨h1, h2⟩ := linear_index_inj hpx hqx h
  omega

/-- Two points in the same grid cell are at squared distance below the
squared cell diagonal `2·cell²`. -/
theorem same_cell_close {P : PDParams} (hc : 0 < P.cell) {p q : Sample}
    (hx : cellX P p = cellX P q) (hy : cellY P p = cellY P q) :
    sdist2 p q < 2 * (P.cell * P.cell) := by
  have hcx := ne_of_gt hc
  have bx1 : ((cellX P p : ℤ) : ℚ) ≤ p.x / P.cell := Int.floor_le _
  have bx2 : p.x / P.cell < ((cellX P p : ℤ) : ℚ) + 1 := Int.lt_floor_add_one _
  have bx3 : ((cellX P p : ℤ) : ℚ) ≤ q.x / P.cell := by
    rw [hx]
    exact Int.floor_le _
  have bx4 : q.x / P.cell < ((cellX P p : ℤ) : ℚ) + 1 := by
    rw [hx]
    exact Int.lt_floor_add_one _
  have by1 : ((cellY P p : ℤ) : ℚ) ≤ p.y / P.cell := Int.floor_le _
  have by2 : p.y / P.cell < ((cellY P p : ℤ) : ℚ) + 1 := Int.lt_floor_add_one _
  have by3 : ((cellY P p : ℤ) : ℚ) ≤ q.y / P.cell := by
    rw [hy]
    exact Int.floor_le _
  have by4 : q.y / P.cell < ((cellY P p : ℤ) : ℚ) + 1 := by
    rw [hy]
    exact Int.lt_floor_add_one _
  have ex1 : p.x / P.cell * P.cell = p.x := div_mul_cancel₀ _ hcx
  have ex2 : q.x / P.cell * P.cell = q.x := div_mul_cancel₀ _ hcx
  have ey1 : p.y / P.cell * P.cell = p.y := div_mul_cancel₀ _ hcx
  have ey2 : q.y / P.cell * P.cell = q.y := div_mul_cancel₀ _ hcx
  have edx : p.x - q.x = (p.x / P.cell - q.x / P.cell) * P.cell := by
    rw [sub_mul, ex1, ex2]
  have edy : p.y - q.y = (p.y / P.cell - q.y / P.cell) * P.cell := by
    rw [sub_mul, ey1, ey2]
  have hdx1 : p.x - q.x < P.cell := by
    rw [edx]
    nlinarith
  have hdx2 : -(P.cell) < p.x - q.x := by
    rw [edx]
    nlinarith
  have hdy1 : p.y - q.y < P.cell := by
    rw [edy]
    nlinarith
  have hdy2 : -(P.cell) < p.y - q.y := by
    rw [edy]
    nlinarith
  rw [sdist2]
  nlinarith [mul_pos (by linarith : (0:ℚ) < P.cell - (p.x - q.x))
      (by linarith : (0:ℚ) < P.cell + (p.x - q.x)),
    mul_pos (by linarith : (0:ℚ) < P.cell - (p.y - q.y))
      (by linarith : (0:ℚ) < P.cell + (p.y - q.y))]

/-- A point at distance below `r` from a candidate lies at most two cells
away in each axis (this is where `r ≤ 2·cell` enters). -/
theorem cell_close {P : PDParams} (hc : 0 < P.cell) (hr : 0 < P.r)
    (hc2 : P.r ≤ 2 * P.cell) {s c : Sample} (hlt : sdist2 s c < P.r * P.r) :
    (cellX P c - 2 ≤ cellX P s ∧ cellX P s ≤ cellX P c + 2) ∧
      (cellY P c - 2 ≤ cellY P s ∧ cellY P s ≤ cellY P c + 2) := by
  have hyy : 0 ≤ (s.y - c.y) * (s.y - c.y) := mul_self_nonneg _
  have hxx : 0 ≤ (s.x - c.x) * (s.x - c.x) := mul_self_nonneg _
  rw [sdist2] at hlt
  have hr2 : P.r * P.r ≤ (2 * P.cell) * (2 * P.cell) := by nlinarith
  have hdx1 : s.x - c.x ≤ 2 * P.cell := by nlinarith
  have hdx2 : -(2 * P.cell) ≤ s.x - c.x := by nlinarith
  have hdy1 : s.y - c.y ≤ 2 * P.cell := by nlinarith
  have hdy2 : -(2 * P.cell) ≤ s.y - c.y := by nlinarith
  have hqx1 : s.x / P.cell ≤ c.x / P.cell + 2 := by
    have h7 : s.x ≤ c.x + 2 * P.cell := by linarith
    calc s.x / P.cell ≤ (c.x + 2 * P.cell) / P.cell := by gcongr
    _ = c.x / P.cell + 2 := by
        field_simp
  have hqx2 : c.x / P.cell - 2 ≤ s.x / P.cell := by
    have h7 : c.x - 2 * P.cell ≤ s.x := by linarith
    calc c.x / P.cell - 2 = (c.x - 2 * P.cell) / P.cell := by field_simp; ring
    _ ≤ s.x / P.cell := by gcongr
  have hqy1 : s.y / P.cell ≤ c.y / P.cell + 2 := by
    have h7 : s.y ≤ c.y + 2 * P.cell := by linarith
    calc s.y / P.cell ≤ (c.y + 2 * P.cell) / P.cell := by gcongr
    _ = c.y / P.cell + 2 := by
        field_simp
  have hqy2 : c.y / P.cell - 2 ≤ s.y / P.cell := by
    have h7 : c.y - 2 * P.cell ≤ s.y := by linarith
    calc c.y / P.cell - 2 = (c.y - 2 * P.cell) / P.cell := by field_simp; ring
    _ ≤ s.y / P.cell := by gcongr
  refine ⟨⟨?_, ?_⟩, ?_, ?_⟩
  · have h6 : ⌊c.x / P.cell - ((2 : ℤ) : ℚ)⌋ ≤ ⌊s.x / P.cell⌋ :=
      Int.floor_le_floor (by push_cast; linarith)
    rwa [Int.floor_sub_int] at h6
  · have h6 : ⌊s.x / P.cell⌋ ≤ ⌊c.x / P.cell + ((2 : ℤ) : ℚ)⌋ :=
      Int.floor_le_floor (by push_cast; linarith)
    rwa [Int.floor_add_int] at h6
  · have h6 : ⌊c.y / P.cell - ((2 : ℤ) : ℚ)⌋ ≤ ⌊s.y / P.cell⌋ :=
      Int.floor_le_floor (by push_cast; linarith)
    rwa [Int.floor_sub_int] at h6
  · have h6 : ⌊s.y / P.cell⌋ ≤ ⌊c.y / P.cell + ((2 : ℤ) : ℚ)⌋ :=
      Int.floor_le_floor (by push_cast; linarith)
    rwa [Int.floor_add_int] at h6

/-- Interval membership in the clamped 5-cell scan range. -/
theorem mem_neighborRange {g lim x : ℕ} (hx : x < lim) (hg : g < lim)
    (h1 : g ≤ x + 2) (h2 : x ≤ g + 2) : x ∈ neighborRange g lim := by
  rw [neighborRange, List.mem_range'_1]
  omega

/-- The invariant carried through the sampler's run: samples are
in-bounds, pairwise at squared distance at least `r²`, each is registered
in the grid at its own cell, and the grid holds nothing else. -/
structure PDInv (P : PDParams) (st : PDState) : Prop where
  inB : ∀ s ∈ st.samples, inBounds P s = true
  spaced : ∀ p ∈ st.samples, ∀ q ∈ st.samples, p ≠ q → P.r * P.r ≤ sdist2 p q
  reg : ∀ p ∈ st.samples, st.grid (gridIndex P p) = some p
  gridSub : ∀ idx s, st.grid idx = some s → s ∈ st.samples ∧ idx = gridIndex P s

/-- The heart of C5: under the invariant, passing the 5×5 neighbourhood
test means the candidate is at squared distance at least `r²` from EVERY
sample — the grid registration plus the two-cell reach bound make the
local scan global. -/
theorem farEnough_spacing {P : PDParams} (hc : 0 < P.cell) (hr : 0 < P.r)
    (hc2 : P.r ≤ 2 * P.cell) {st : PDState} (hinv : PDInv P st) {cpt : Sample}
    (hin : inBounds P cpt = true) (hfar : farEnough P st.grid cpt = true) :
    ∀ s ∈ st.samples, P.r * P.r ≤ sdist2 s cpt := by
  intro s hs
  by_contra hlt
  push_neg at hlt
  have hsin := hinv.inB s hs
  obtain ⟨⟨hsx0, hsxw⟩, ⟨hsy0, hsyh⟩⟩ := cell_bounds hc hsin
  obtain ⟨⟨hcx0, hcxw⟩, ⟨hcy0, hcyh⟩⟩ := cell_bounds hc hin
  obtain ⟨⟨hdx1, hdx2⟩, ⟨hdy1, hdy2⟩⟩ := cell_close hc hr hc2 hlt
  have hYmem : (cellY P s).toNat ∈ neighborRange (cellY P cpt).toNat (gridH P) := by
    refine mem_neighborRange ?_ ?_ ?_ ?_ <;> omega
  have hXmem : (cellX P s).toNat ∈ neighborRange (cellX P cpt).toNat (gridW P) := by
    refine mem_neighborRange ?_ ?_ ?_ ?_ <;> omega
  rw [farEnough, List.all_eq_true] at hfar
  have hj := hfar _ hYmem
  simp only [List.all_eq_true] at hj
  have hi := hj _ hXmem
  have hidx : (cellY P s).toNat * gridW P + (cellX P s).toNat = gridIndex P s := rfl
  rw [hidx, hinv.reg s hs, Option.all_some, decide_eq_true_eq] at hi
  exact absurd hi (not_le.2 hlt)

/-- Accepting a far-enough, in-bounds candidate preserves the sampler
invariant (in particular the new grid write cannot clobber an existing
registration: a shared cell would contradict the minimum spacing). -/
theorem addSample_inv {P : PDParams} (hc : 0 < P.cell) (_hr : 0 < P.r)
    (hc1 : 2 * (P.cell * P.cell) ≤ P.r * P.r) {st : PDState} {cpt : Sample}
    (hinv : PDInv P st) (hin : inBounds P cpt = true)
    (hsp : ∀ s ∈ st.samples, P.r * P.r ≤ sdist2 s cpt) :
    PDInv P (addSample P st cpt) := by
  have hnoclobber : ∀ p ∈ st.samples, gridIndex P p ≠ gridIndex P cpt := by
    intro p hp heq
    obtain ⟨hx, hy⟩ := gridIndex_inj hc (hinv.inB p hp) hin heq
    have hclose := same_cell_close hc hx hy
    have := hsp p hp
    linarith
  have hmem : ∀ x : Sample, x ∈ (addSample P st cpt).samples ↔ x ∈ st.samples ∨ x = cpt := by
    intro x
    simp [addSample]
  constructor
  · intro s hs
    rcases (hmem s).1 hs with hs | rfl
    · exact hinv.inB s hs
    · exact hin
  · intro p hp q hq hne
    rcases (hmem p).1 hp with hp1 | rfl
    · rcases (hmem q).1 hq with hq1 | rfl
      · exact hinv.spaced p hp1 q hq1 hne
      · exact hsp p hp1
    · rcases (hmem q).1 hq with hq1 | rfl
      · rw [sdist2_comm]
        exact hsp q hq1
      · exact absurd rfl hne
  · intro p hp
    rcases (hmem p).1 hp with hp1 | rfl
    · show (if gridIndex P p = gridIndex P cpt then some cpt else st.grid (gridIndex P p)) =
        some p
      rw [if_neg (hnoclobber p hp1)]
      exact hinv.reg p hp1
    · show (if gridIndex P p = gridIndex P p then some p else st.grid (gridIndex P p)) = some p
      rw [if_pos rfl]
  · intro idx s hgs
    have hgs2 : (if idx = gridIndex P cpt then some cpt else st.grid idx) = some s := hgs
    by_cases hidx : idx = gridIndex P cpt
    · rw [if_pos hidx, Option.some_inj] at hgs2
      subst hgs2
      exact ⟨(hmem _).2 (Or.inr rfl), hidx⟩
    · rw [if_neg hidx] at hgs2
      obtain ⟨hsm, heq⟩ := hinv.gridSub idx s hgs2
      exact ⟨(hmem _).2 (Or.inl hsm), heq⟩

/-- The initial center seed satisfies the sampler invariant. -/
theorem pdInit_inv {P : PDParams} (hW : 0 < P.width) (hH : 0 < P.height) :
    PDInv P (pdInit P) := by
  have hin : inBounds P ⟨P.width / 2, P.height / 2⟩ = true := by
    rw [inBounds_iff]
    refine ⟨by positivity, half_lt_self hW, by positivity, half_lt_self hH⟩
  have hmem : ∀ x : Sample,
      x ∈ (pdInit P).samples ↔ x = (⟨P.width / 2, P.height / 2⟩ : Sample) := by
    intro x
    simp [pdInit, addSample]
  constructor
  · intro s hs
    rcases (hmem s).1 hs with rfl
    exact hin
  · intro p hp q hq hne
    rcases (hmem p).1 hp with rfl
    rcases (hmem q).1 hq with rfl
    exact absurd rfl hne
  · intro p hp
    rcases (hmem p).1 hp with rfl
    show (if gridIndex P (⟨P.width / 2, P.height / 2⟩ : Sample) =
        gridIndex P (⟨P.width / 2, P.height / 2⟩ : Sample) then
        some (⟨P.width / 2, P.height / 2⟩ : Sample) else none) =
      some (⟨P.width / 2, P.height / 2⟩ : Sample)
    rw [if_pos rfl]
  · intro idx s hgs
    have hgs2 :
        (if idx = gridIndex P (⟨P.width / 2, P.height / 2⟩ : Sample) then
          some (⟨P.width / 2, P.height / 2⟩ : Sample) else none) = some s := hgs
    by_cases hidx : idx = gridIndex P (⟨P.width / 2, P.height / 2⟩ : Sample)
    · rw [if_pos hidx, Option.some_inj] at hgs2
      subst hgs2
      exact ⟨(hmem _).2 rfl, hidx⟩
    · rw [if_neg hidx] at hgs2
      exact absurd hgs2 (by simp)

/-- One sampler step preserves the invariant. -/
theorem pdStep_inv {P : PDParams} (hc : 0 < P.cell) (hr : 0 < P.r)
    (hc1 : 2 * (P.cell * P.cell) ≤ P.r * P.r) (hc2 : P.r ≤ 2 * P.cell)
    {st : PDState} (hinv : PDInv P st) (pick : ℕ) (cands : List Sample) :
    PDInv P (pdStep P st pick cands) := by
  rw [pdStep]
  split_ifs with hemp
  · exact hinv
  · cases hfo : firstOk P st.grid cands with
    | none =>
      simp only
      exact ⟨hinv.inB, hinv.spaced, hinv.reg, hinv.gridSub⟩
    | some c =>
      simp only
      rw [firstOk] at hfo
      have hpred := List.find?_some hfo
      rw [Bool.and_eq_true] at hpred
      exact addSample_inv hc hr hc1 hinv hpred.1
        (farEnough_spacing hc hr hc2 hinv hpred.1 hpred.2)

/-- The invariant holds after any run of the sampler. -/
theorem pdRun_inv {P : PDParams} (hW : 0 < P.width) (hH : 0 < P.height)
    (hr : 0 < P.r) (hc : 0 < P.cell)
    (hc1 : 2 * (P.cell * P.cell) ≤ P.r * P.r) (hc2 : P.r ≤ 2 * P.cell)
    (evts : List (ℕ × List Sample)) : PDInv P (pdRun P evts) := by
  rw [pdRun]
  have init := pdInit_inv hW hH (P := P)
  generalize pdInit P = st0 at init
  induction evts generalizing st0 with
  | nil => exact init
  | cons e rest ih => exact ih _ (pdStep_inv hc hr hc1 hc2 init e.1 e.2)

/-- Claim C5 — Poisson-disc minimum spacing: for every rectangular region
with positive width and height and every minimum distance `r > 0`, every
pair of distinct points returned by the sampler is at Euclidean distance
at least `r` apart; the 5×5 grid-neighbourhood rejection test, with a
cell size satisfying the two properties of `r/√2` (diagonal at most `r`:
`2·cell² ≤ r²`, and reach two cells: `r ≤ 2·cell`), suffices to enforce
this against the whole point set.  Quantified over every candidate/pick
stream and every run length. -/
theorem claim_C5_poisson_min_spacing (P : PDParams) (hW : 0 < P.width)
    (hH : 0 < P.height) (hr : 0 < P.r) (hc : 0 < P.cell)
    (hc1 : 2 * (P.cell * P.cell) ≤ P.r * P.r) (hc2 : P.r ≤ 2 * P.cell)
    (evts : List (ℕ × List Sample)) :
    ∀ p ∈ (pdRun P evts).samples, ∀ q ∈ (pdRun P evts).samples, p ≠ q →
      ((P.r : ℚ) : ℝ) ≤ Real.sqrt ((sdist2 p q : ℚ) : ℝ) := by
  intro p hp q hq hne
  have h := (pdRun_inv hW hH hr hc hc1 hc2 evts).spaced p hp q hq hne
  have hcast : ((P.r : ℚ) : ℝ) * ((P.r : ℚ) : ℝ) ≤ ((sdist2 p q : ℚ) : ℝ) := by
    rw [← Rat.cast_mul]
    exact_mod_cast h
  calc ((P.r : ℚ) : ℝ) = Real.sqrt (((P.r : ℚ) : ℝ) * ((P.r : ℚ) : ℝ)) :=
        (Real.sqrt_mul_self (by exact_mod_cast hr.le)).symm
  _ ≤ Real.sqrt ((sdist2 p q : ℚ) : ℝ) := Real.sqrt_le_sqrt hcast

/-!
## Motion model: seamless looping and the frame condition (claims C1, C8)
-/

/-- Truncation toward zero is monotone. -/
theorem jsTrunc_mono {y z : ℝ} (h : y ≤ z) : jsTrunc y ≤ jsTrunc z := by
  rw [jsTrunc, jsTrunc]
  split_ifs with hy hz hz
  · exact Int.floor_le_floor h
  · exact absurd (le_trans hy h) hz
  · calc Int.ceil y ≤ 0 := Int.ceil_le.2 (by exact_mod_cast (not_le.1 hy).le)
    _ ≤ Int.floor z := Int.floor_nonneg.2 hz
  · exact Int.ceil_le_ceil h

/-- Truncation of `y + 1` exceeds truncation of `y` by at most one. -/
theorem jsTrunc_add_one_le (y : ℝ) : jsTrunc (y + 1) ≤ jsTrunc y + 1 := by
  rw [jsTrunc, jsTrunc]
  split_ifs with hy1 hy hy
  · rw [Int.floor_add_one]
  · calc (⌊y + 1⌋ : ℤ) ≤ ⌈y + 1⌉ := Int.floor_le_ceil _
    _ = ⌈y⌉ + 1 := Int.ceil_add_one _
  · exact absurd (by linarith : (0:ℝ) ≤ y + 1) hy1
  · rw [Int.ceil_add_one]

/-- The JS remainder gains either `0` or `D` when its argument advances
by one full period `D > 0` (it is not exactly periodic around the sign
change of the argument, but the two values only ever differ by `D`). -/
theorem jsFmod_add_right {x D : ℝ} (hD : 0 < D) :
    jsFmod (x + D) D = jsFmod x D ∨ jsFmod (x + D) D = jsFmod x D + D := by
  have hD0 : D ≠ 0 := ne_of_gt hD
  have hdiv : (x + D) / D = x / D + 1 := by field_simp
  have h1 : jsTrunc (x / D) ≤ jsTrunc (x / D + 1) := jsTrunc_mono (by linarith)
  have h2 : jsTrunc (x / D + 1) ≤ jsTrunc (x / D) + 1 := jsTrunc_add_one_le _
  rw [jsFmod, jsFmod, hdiv]
  rcases eq_or_lt_of_le h1 with heq | hlt
  · right
    rw [← heq]
    ring
  · left
    have h3 : jsTrunc (x / D + 1) = jsTrunc (x / D) + 1 := by omega
    rw [h3]
    push_cast
    ring

/-- Advancing `now` by one loop duration shifts the base loop angle by an
integer multiple of `2π` (namely `0` or `2π`). -/
theorem baseTheta_add_loop (cfg : MotionConfig) (hD : 0 < cfg.LOOP_DURATION_MS)
    (loopStart now : ℝ) :
    ∃ k : ℤ, baseTheta cfg loopStart (now + cfg.LOOP_DURATION_MS) =
      baseTheta cfg loopStart now + (k : ℝ) * (2 * Real.pi) := by
  have harg : now + cfg.LOOP_DURATION_MS - loopStart =
      now - loopStart + cfg.LOOP_DURATION_MS := by ring
  rw [baseTheta, baseTheta, harg]
  rcases jsFmod_add_right hD (x := now - loopStart) with h | h
  · refine ⟨0, ?_⟩
    rw [h]
    push_cast
    ring
  · refine ⟨1, ?_⟩
    rw [h]
    have h4 : (jsFmod (now - loopStart) cfg.LOOP_DURATION_MS + cfg.LOOP_DURATION_MS) /
        cfg.LOOP_DURATION_MS =
        jsFmod (now - loopStart) cfg.LOOP_DURATION_MS / cfg.LOOP_DURATION_MS + 1 := by
      field_simp
    rw [h4]
    push_cast
    ring

/-- Shifting the base angle by an integer multiple of `2π` leaves the
recomputed position of a moving node unchanged, whenever the per-band
cycle counts are integers. -/
theorem updateMovingNode_periodic (cfg : MotionConfig) (minDim θ : ℝ) (k : ℤ)
    (hnear : ∃ a : ℤ, cfg.ELLIPSE_NEAR_CYCLES = (a : ℝ))
    (hmid : ∃ b : ℤ, cfg.ELLIPSE_MID_CYCLES = (b : ℝ)) (n : MNode) :
    updateMovingNode cfg minDim (θ + (k : ℝ) * (2 * Real.pi)) n =
      updateMovingNode cfg minDim θ n := by
  obtain ⟨a, ha⟩ := hnear
  obtain ⟨b, hb⟩ := hmid
  have hargn : (θ + (k : ℝ) * (2 * Real.pi)) * cfg.ELLIPSE_NEAR_CYCLES =
      θ * cfg.ELLIPSE_NEAR_CYCLES + ((k * a : ℤ) : ℝ) * (2 * Real.pi) := by
    rw [ha]
    push_cast
    ring
  have hargm : (θ + (k : ℝ) * (2 * Real.pi)) * cfg.ELLIPSE_MID_CYCLES =
      θ * cfg.ELLIPSE_MID_CYCLES + ((k * b : ℤ) : ℝ) * (2 * Real.pi) := by
    rw [hb]
    push_cast
    ring
  have hc1 : Real.cos ((θ + (k : ℝ) * (2 * Real.pi)) * cfg.ELLIPSE_NEAR_CYCLES) =
      Real.cos (θ * cfg.ELLIPSE_NEAR_CYCLES) := by
    rw [hargn, Real.cos_add_int_mul_two_pi]
  have hs1 : Real.sin ((θ + (k : ℝ) * (2 * Real.pi)) * cfg.ELLIPSE_NEAR_CYCLES) =
      Real.sin (θ * cfg.ELLIPSE_NEAR_CYCLES) := by
    rw [hargn, Real.sin_add_int_mul_two_pi]
  have hc2 : Real.cos ((θ + (k : ℝ) * (2 * Real.pi)) * cfg.ELLIPSE_MID_CYCLES) =
      Real.cos (θ * cfg.ELLIPSE_MID_CYCLES) := by
    rw [hargm, Real.cos_add_int_mul_two_pi]
  have hs2 : Real.sin ((θ + (k : ℝ) * (2 * Real.pi)) * cfg.ELLIPSE_MID_CYCLES) =
      Real.sin (θ * cfg.ELLIPSE_MID_CYCLES) := by
    rw [hargm, Real.sin_add_int_mul_two_pi]
  rw [updateMovingNode, updateMovingNode]
  simp only [hc1, hs1, hc2, hs2]

/-- Claim C1 — Seamless looping: for every foreground node list, the
positions computed by the simulation update are identical at simulation
times `t` and `t + LOOP_DURATION_MS`, for every configuration whose
per-band cycle counts (`ELLIPSE_NEAR_CYCLES`, `ELLIPSE_MID_CYCLES`) are
integers: position is recomputed each tick as a pure function of the
periodic loop-phase angle and per-node constants, never accumulated.
(In the exact real model, "within floating-point tolerance" becomes exact
equality.) -/
theorem claim_C1_seamless_loop (cfg : MotionConfig)
    (hD : 0 < cfg.LOOP_DURATION_MS)
    (hnear : ∃ a : ℤ, cfg.ELLIPSE_NEAR_CYCLES = (a : ℝ))
    (hmid : ∃ b : ℤ, cfg.ELLIPSE_MID_CYCLES = (b : ℝ))
    (width height loopStart now : ℝ) (nodes : List MNode) (flags : List Bool) :
    updateNodes cfg width height loopStart (now + cfg.LOOP_DURATION_MS) nodes flags =
      updateNodes cfg width height loopStart now nodes flags := by
  obtain ⟨k, hkeq⟩ := baseTheta_add_loop cfg hD loopStart now
  rw [updateNodes, updateNodes, hkeq]
  have hfun : (fun (i : ℕ) (n : MNode) =>
      if flags.getD i false then
        updateMovingNode cfg (max 1 (min width height))
          (baseTheta cfg loopStart now + (k : ℝ) * (2 * Real.pi)) n
      else n) = fun (i : ℕ) (n : MNode) =>
      if flags.getD i false then
        updateMovingNode cfg (max 1 (min width height)) (baseTheta cfg loopStart now) n
      else n := by
    funext i n
    by_cases hf : flags.getD i false
    · simp only [hf, if_true]
      exact updateMovingNode_periodic cfg _ _ k ⟨_, hnear.choose_spec⟩
        ⟨_, hmid.choose_spec⟩ n
    · rw [if_neg hf, if_neg hf]
  exact congrArg (fun f => List.mapIdx f nodes) hfun

/-- Both branches of the motion step write only the position fields:
origin, depth and seed phase are untouched. -/
theorem updateMovingNode_frame (cfg : MotionConfig) (minDim θ : ℝ) (n : MNode) :
    (updateMovingNode cfg minDim θ n).ox = n.ox ∧
      (updateMovingNode cfg minDim θ n).oy = n.oy ∧
      (updateMovingNode cfg minDim θ n).z = n.z ∧
      (updateMovingNode cfg minDim θ n).seedPhase = n.seedPhase := by
  rw [updateMovingNode]
  split
  · exact ⟨rfl, rfl, rfl, rfl⟩
  · exact ⟨rfl, rfl, rfl, rfl⟩

/-- Pointwise description of the update of node `i`. -/
theorem updateNodes_getD (cfg : MotionConfig) (width height loopStart now : ℝ)
    (nodes : List MNode) (flags : List Bool) {i : ℕ} (hi : i < nodes.length) :
    (updateNodes cfg width height loopStart now nodes flags).getD i default =
      (if flags.getD i false then
        updateMovingNode cfg (max 1 (min width height)) (baseTheta cfg loopStart now)
          (nodes.getD i default)
      else nodes.getD i default) := by
  rw [updateNodes]
  have hlen : i < (List.mapIdx (fun i n =>
      if flags.getD i false then
        updateMovingNode cfg (max 1 (min width height)) (baseTheta cfg loopStart now) n
      else n) nodes).length := by
    rw [List.length_mapIdx]
    exact hi
  rw [List.getD_eq_getElem _ _ hlen, List.getElem_mapIdx, List.getD_eq_getElem _ _ hi]

/-- Claim C8 — Motion-step frame condition: a single simulation update
never changes any node's origin `(ox, oy)`, depth `z`, or per-node seed
phase; it never changes the position of a node whose band flag is
static, and a static node whose position equals its origin keeps that
property — only layout/resize mutates origins. -/
theorem claim_C8_update_frame (cfg : MotionConfig) (width height loopStart now : ℝ)
    (nodes : List MNode) (flags : List Bool) :
    (updateNodes cfg width height loopStart now nodes flags).length = nodes.length ∧
    ∀ i, i < nodes.length →
      ((updateNodes cfg width height loopStart now nodes flags).getD i default).ox =
        (nodes.getD i default).ox ∧
      ((updateNodes cfg width height loopStart now nodes flags).getD i default).oy =
        (nodes.getD i default).oy ∧
      ((updateNodes cfg width height loopStart now nodes flags).getD i default).z =
        (nodes.getD i default).z ∧
      ((updateNodes cfg width height loopStart now nodes flags).getD i default).seedPhase =
        (nodes.getD i default).seedPhase ∧
      (flags.getD i false = false →
        ((updateNodes cfg width height loopStart now nodes flags).getD i default).x =
          (nodes.getD i default).x ∧
        ((updateNodes cfg width height loopStart now nodes flags).getD i default).y =
          (nodes.getD i default).y ∧
        ((nodes.getD i default).x = (nodes.getD i default).ox →
          (nodes.getD i default).y = (nodes.getD i default).oy →
          ((updateNodes cfg width height loopStart now nodes flags).getD i default).x =
            ((updateNodes cfg width height loopStart now nodes flags).getD i default).ox ∧
          ((updateNodes cfg width height loopStart now nodes flags).getD i default).y =
            ((updateNodes cfg width height loopStart now nodes flags).getD i default).oy)) := by
  constructor
  · rw [updateNodes]
    exact List.length_mapIdx
  · intro i hi
    rw [updateNodes_getD cfg width height loopStart now nodes flags hi]
    by_cases hf : flags.getD i false
    · obtain ⟨h1, h2, h3, h4⟩ :=
        updateMovingNode_frame cfg (max 1 (min width height))
          (baseTheta cfg loopStart now) (nodes.getD i default)
      simp only [hf, if_true]
      refine ⟨h1, h2, h3, h4, fun hcontra => ?_⟩
      simp [hf] at hcontra
    · simp only [hf, if_false]
      refine ⟨rfl, rfl, rfl, rfl, fun _ => ⟨rfl, rfl, fun hx hy => ⟨hx, hy⟩⟩⟩

/-- Witness for C1: with the source's configuration (loop 28000 ms, one
cycle per loop in both bands), a one-node population at time 3 ms and one
loop later computes identical positions. -/
theorem claim_C1_witness :
    updateNodes sourceMotionConfig 1440 900 0 (3 + sourceMotionConfig.LOOP_DURATION_MS)
        [⟨5, 6, 1 / 5, 5, 6, 0⟩] [true] =
      updateNodes sourceMotionConfig 1440 900 0 3 [⟨5, 6, 1 / 5, 5, 6, 0⟩] [true] :=
  claim_C1_seamless_loop sourceMotionConfig (by norm_num [sourceMotionConfig])
    ⟨1, by norm_num [sourceMotionConfig]⟩ ⟨1, by norm_num [sourceMotionConfig]⟩
    1440 900 0 3 [⟨5, 6, 1 / 5, 5, 6, 0⟩] [true]

/-- Witness for C8: a concrete static node (flag `false`) keeps its
position across one update. -/
theorem claim_C8_witness :
    ((updateNodes sourceMotionConfig 1000 800 0 77 [⟨1, 2, 9 / 10, 1, 2, 0⟩]
        [false]).getD 0 default).x =
      (([⟨1, 2, 9 / 10, 1, 2, 0⟩] : List MNode).getD 0 default).x ∧
    ((updateNodes sourceMotionConfig 1000 800 0 77 [⟨1, 2, 9 / 10, 1, 2, 0⟩]
        [false]).getD 0 default).ox =
      (([⟨1, 2, 9 / 10, 1, 2, 0⟩] : List MNode).getD 0 default).ox := by
  have h := (claim_C8_update_frame sourceMotionConfig 1000 800 0 77
    [⟨1, 2, 9 / 10, 1, 2, 0⟩] [false]).2 0 (by decide)
  exact ⟨(h.2.2.2.2 rfl).1, h.1⟩

set_option allowUnsafeReducibility true in
attribute [local semireducible] Rat.add Rat.mul Rat.sub Rat.neg Rat.inv Rat.floor Rat.ceil in
/-- Witness for C5: the spec's own example region (1000×1000, r = 50,
cell = 35, which satisfies `2·35² = 2450 ≤ 2500 = 50²` and `50 ≤ 70`),
run for one step whose candidate `(0,0)` is accepted; the center seed
`(500,500)` and `(0,0)` are then at least 50 apart. -/
theorem claim_C5_witness :
    (((⟨1000, 1000, 50, 35⟩ : PDParams).r : ℚ) : ℝ) ≤
      Real.sqrt ((sdist2 ⟨500, 500⟩ ⟨0, 0⟩ : ℚ) : ℝ) :=
  claim_C5_poisson_min_spacing ⟨1000, 1000, 50, 35⟩ (by decide) (by decide) (by decide)
    (by decide) (by decide) (by decide) [(0, [⟨0, 0⟩])]
    ⟨500, 500⟩ (by decide) ⟨0, 0⟩ (by decide) (by decide)

set_option allowUnsafeReducibility true in
attribute [local semireducible] Rat.add Rat.mul Rat.sub Rat.neg Rat.inv in
/-- Witness for C7: a concrete two-node build at link-distance cap 10
contains the edge between nodes 0 and 1 (distance 5), and the bound
applies to it. -/
theorem claim_C7_witness :
    Real.sqrt ((dist2 (([⟨0, 0⟩, ⟨3, 4⟩] : List Pt).getD 0 default)
        (([⟨0, 0⟩, ⟨3, 4⟩] : List Pt).getD 1 default) : ℚ) : ℝ) ≤ ((10 : ℚ) : ℝ) :=
  (claim_C7_edge_length_bound [⟨0, 0⟩, ⟨3, 4⟩] [true, true] 10 (fun _ _ _ => true) [0, 1]
      [] 0 (fun _ _ => true) (by decide) (by decide)).1
    ⟨0, 1, 25⟩ (by decide)

/-!
## Pulse scheduler: caps, exhaustion behaviour, distance safety
(claims C3, C4, C10)
-/

/-- The advance/compaction loop never lengthens the live list. -/
theorem advancePulses_len (tInc : ℚ) (ps : List Pulse) (pool : PulsePool) :
    (advancePulses tInc ps pool).1.length ≤ ps.length := by
  have key : ∀ (l : List Pulse) (acc : List Pulse × PulsePool),
      (l.foldl (advanceStep tInc) acc).1.length ≤ acc.1.length + l.length := by
    intro l
    induction l with
    | nil => simp
    | cons p rest ih =>
      intro acc
      rw [List.foldl_cons]
      refine le_trans (ih _) ?_
      have hstep : (advanceStep tInc acc p).1.length ≤ acc.1.length + 1 := by
        rw [advanceStep]
        split_ifs <;> simp
      simp only [List.length_cons]
      omega
  simpa using key ps ([], pool)

/-- Clamping lands in the interval. -/
theorem clampZ_mem {v a b : ℤ} (hab : a ≤ b) : a ≤ clampZ v a b ∧ clampZ v a b ≤ b := by
  rw [clampZ]
  split_ifs <;> omega

/-- The cap part of the pulse-state invariant: the live count never
exceeds `CONFIG.PULSE_MAX_ACTIVE`, and the responsive `pulseMaxActive`
stays in `[1, PULSE_MAX_ACTIVE]`. -/
theorem pulseEventStep_caps {st : PulseSt}
    (h : st.pulses.length ≤ PULSE_MAX_ACTIVE ∧ 1 ≤ st.pulseMaxActive ∧
      st.pulseMaxActive ≤ (PULSE_MAX_ACTIVE : ℤ)) (e : PEvent) :
    (pulseEventStep st e).pulses.length ≤ PULSE_MAX_ACTIVE ∧
      1 ≤ (pulseEventStep st e).pulseMaxActive ∧
      (pulseEventStep st e).pulseMaxActive ≤ (PULSE_MAX_ACTIVE : ℤ) := by
  obtain ⟨hlen, hlo, hhi⟩ := h
  cases e with
  | tick dt_ms now dynLinks linksLen pickDyn pickAll rawDist =>
    have hspawn : (spawnPhase now dynLinks linksLen pickDyn pickAll rawDist st).pulses.length ≤
        PULSE_MAX_ACTIVE ∧
        (spawnPhase now dynLinks linksLen pickDyn pickAll rawDist st).pulseMaxActive =
          st.pulseMaxActive := by
      rw [spawnPhase]
      split_ifs with hcond hli
      · refine ⟨?_, rfl⟩
        simp only [List.length_append, List.length_singleton]
        omega
      · exact ⟨hlen, rfl⟩
      · exact ⟨hlen, rfl⟩
    refine ⟨?_, ?_, ?_⟩
    · show (advancePulses (PULSE_SPEED * (dt_ms / 1000))
          (spawnPhase now dynLinks linksLen pickDyn pickAll rawDist st).pulses
          (spawnPhase now dynLinks linksLen pickDyn pickAll rawDist st).pool).1.length ≤
        PULSE_MAX_ACTIVE
      exact le_trans (advancePulses_len _ _ _) hspawn.1
    · show 1 ≤ (spawnPhase now dynLinks linksLen pickDyn pickAll rawDist st).pulseMaxActive
      rw [hspawn.2]
      exact hlo
    · show (spawnPhase now dynLinks linksLen pickDyn pickAll rawDist st).pulseMaxActive ≤
        (PULSE_MAX_ACTIVE : ℤ)
      rw [hspawn.2]
      exact hhi
  | resize kL =>
    have hcl := clampZ_mem (v := jsRound (BASE_PULSE_MAX_ACTIVE * kL))
      (a := (1 : ℤ)) (b := (PULSE_MAX_ACTIVE : ℤ)) (by decide)
    exact ⟨hlen, hcl.1, hcl.2⟩

set_option allowUnsafeReducibility true in
attribute [local semireducible] Rat.add Rat.mul Rat.sub Rat.neg Rat.inv Rat.floor Rat.ceil in
/-- Counterexample for C3 as stated: two pulses are spawned while the
cap is 4, then a resize shrinks `pulseMaxActive` to 1 with both pulses
still live, so the live count exceeds the current `pulseMaxActive`. -/
theorem claim_C3_counterexample :
    ¬ (((pulseRun [PEvent.tick 1000 1000 [0] 1 0 0 1000000,
          PEvent.tick 1000 2000 [0] 1 0 0 1000000,
          PEvent.resize (1 / 1000)]).pulses.length : ℤ) ≤
        (pulseRun [PEvent.tick 1000 1000 [0] 1 0 0 1000000,
          PEvent.tick 1000 2000 [0] 1 0 0 1000000,
          PEvent.resize (1 / 1000)]).pulseMaxActive) := by
  decide

/-- Claim C3, amended: at every point of every execution the number of
live pulses is at most `CONFIG.PULSE_MAX_ACTIVE` (4) and hence at most
the fixed pool size `PULSE_POOL_SIZE` (12), and the responsive
`pulseMaxActive` always lies in `[1, PULSE_MAX_ACTIVE]`; but after a
resize lowers `pulseMaxActive` below the live count, the live count may
transiently exceed the CURRENT `pulseMaxActive` (see the counterexample)
— spawning, not the live set, is what the current cap bounds. -/
theorem claim_C3_amended_pulse_caps (evts : List PEvent) :
    (pulseRun evts).pulses.length ≤ PULSE_MAX_ACTIVE ∧
    (pulseRun evts).pulses.length ≤ PULSE_POOL_SIZE ∧
    1 ≤ (pulseRun evts).pulseMaxActive ∧
    (pulseRun evts).pulseMaxActive ≤ (PULSE_MAX_ACTIVE : ℤ) := by
  have main : (pulseRun evts).pulses.length ≤ PULSE_MAX_ACTIVE ∧
      1 ≤ (pulseRun evts).pulseMaxActive ∧
      (pulseRun evts).pulseMaxActive ≤ (PULSE_MAX_ACTIVE : ℤ) := by
    rw [pulseRun]
    have hinit : pulseInit.pulses.length ≤ PULSE_MAX_ACTIVE ∧
        1 ≤ pulseInit.pulseMaxActive ∧ pulseInit.pulseMaxActive ≤ (PULSE_MAX_ACTIVE : ℤ) := by
      refine ⟨?_, ?_, ?_⟩ <;> simp [pulseInit, PULSE_MAX_ACTIVE]
    generalize pulseInit = st0 at hinit
    induction evts generalizing st0 with
    | nil => exact hinit
    | cons e rest ih => exact ih _ (pulseEventStep_caps hinit e)
  refine ⟨main.1, le_trans main.1 (by rw [PULSE_MAX_ACTIVE, PULSE_POOL_SIZE]; omega),
    main.2.1, main.2.2⟩

set_option allowUnsafeReducibility true in
attribute [local semireducible] Rat.add Rat.mul Rat.sub Rat.neg Rat.inv Rat.floor Rat.ceil in
/-- Counterexample for C4 as stated: with an EMPTY pool and the spawn
conditions met, the spawn step still creates a new live pulse (the pool
allocates a fresh object) — spawning does not silently stop. -/
theorem claim_C4_counterexample :
    ¬ ((spawnPhase 1000 [0] 1 0 0 5
        { pool := ⟨[]⟩, pulses := [], pulseMaxActive := 4, lastPulseSpawn := 0 }).pulses.length =
      ({ pool := ⟨[]⟩, pulses := [], pulseMaxActive := 4,
          lastPulseSpawn := 0 } : PulseSt).pulses.length) := by
  decide

/-- Claim C4, amended: pool exhaustion does not stop pulse spawning.
`ObjectPool.get` falls back to creating a fresh object when the free list
is empty, so a spawn attempt with no free slot still activates a new
pulse (and no crash occurs); the pool stays empty until a release.
Spawning pauses only while the live count has reached the current
`pulseMaxActive`. -/
theorem claim_C4_amended_pool_exhaustion (st : PulseSt) (now : ℚ) (dynLinks : List ℕ)
    (linksLen pickDyn pickAll : ℕ) (rawDist : ℚ) :
    (st.pool.pool = [] →
      PULSE_SPAWN_EVERY_MS ≤ now - st.lastPulseSpawn →
      (st.pulses.length : ℤ) < st.pulseMaxActive →
      0 < dynLinks.length →
      (spawnPhase now dynLinks linksLen pickDyn pickAll rawDist st).pulses.length =
        st.pulses.length + 1 ∧
      (spawnPhase now dynLinks linksLen pickDyn pickAll rawDist st).pool.pool = []) ∧
    (¬ (st.pulses.length : ℤ) < st.pulseMaxActive →
      spawnPhase now dynLinks linksLen pickDyn pickAll rawDist st = st) := by
  obtain ⟨⟨plist⟩, pls, pmax, lps⟩ := st
  constructor
  · intro hempty htime hcap hdyn
    cases hempty
    have hli : pickLinkIndex dynLinks linksLen pickDyn pickAll ≠ -1 := by
      rw [pickLinkIndex, if_pos hdyn]
      omega
    rw [spawnPhase, if_pos ⟨htime, hcap⟩, if_pos hli]
    exact ⟨by simp, rfl⟩
  · intro hcap
    rw [spawnPhase, if_neg]
    intro hcond
    exact hcap hcond.2

set_option allowUnsafeReducibility true in
attribute [local semireducible] Rat.add Rat.mul Rat.sub Rat.neg Rat.inv Rat.floor Rat.ceil in
/-- Witness for C4 (amended): at a concrete empty-pool state with the
spawn conditions met, the spawn step yields one live pulse and an empty
pool, and at a concrete at-cap state the spawn step is the identity. -/
theorem claim_C4_amended_witness :
    ((spawnPhase 1000 [0] 1 0 0 5
        { pool := ⟨[]⟩, pulses := [], pulseMaxActive := 4,
          lastPulseSpawn := 0 }).pulses.length = 0 + 1 ∧
      (spawnPhase 1000 [0] 1 0 0 5
        { pool := ⟨[]⟩, pulses := [], pulseMaxActive := 4,
          lastPulseSpawn := 0 }).pool.pool = []) ∧
    spawnPhase 1000 [0] 1 0 0 5
        { pool := ⟨[]⟩, pulses := [], pulseMaxActive := 0, lastPulseSpawn := 0 } =
      { pool := ⟨[]⟩, pulses := [], pulseMaxActive := 0, lastPulseSpawn := 0 } :=
  ⟨(claim_C4_amended_pool_exhaustion
      { pool := ⟨[]⟩, pulses := [], pulseMaxActive := 4, lastPulseSpawn := 0 }
      1000 [0] 1 0 0 5).1 rfl (by decide) (by decide) (by decide),
    (claim_C4_amended_pool_exhaustion
      { pool := ⟨[]⟩, pulses := [], pulseMaxActive := 0, lastPulseSpawn := 0 }
      1000 [0] 1 0 0 5).2 (by decide)⟩

/-- The object handed back by `ObjectPool.get` leaves a pool whose
remaining free objects were already in the pool. -/
theorem PulsePool.get_snd_subset (pl : PulsePool) :
    ∀ q ∈ (pl.get).2.pool, q ∈ pl.pool := by
  rcases pl with ⟨_ | ⟨o, rest⟩⟩
  · intro q hq
    exact absurd hq (List.not_mem_nil q)
  · intro q hq
    exact List.mem_cons_of_mem o hq

/-- The spawn phase preserves the distance invariant: live pulses have
`dist ≥ 1` (the spawn writes `max 1 rawDist`), pool objects have
`dist = 1` (the reset value). -/
theorem spawnPhase_dist {st : PulseSt} (now : ℚ) (dynLinks : List ℕ)
    (linksLen pickDyn pickAll : ℕ) (rawDist : ℚ)
    (h : (∀ p ∈ st.pulses, 1 ≤ p.dist) ∧ ∀ q ∈ st.pool.pool, q.dist = 1) :
    (∀ p ∈ (spawnPhase now dynLinks linksLen pickDyn pickAll rawDist st).pulses, 1 ≤ p.dist) ∧
      ∀ q ∈ (spawnPhase now dynLinks linksLen pickDyn pickAll rawDist st).pool.pool,
        q.dist = 1 := by
  rw [spawnPhase]
  split_ifs with hcond hli
  · constructor
    · intro p hp
      rcases List.mem_append.1 hp with hp | hp
      · exact h.1 p hp
      · rcases List.mem_singleton.1 hp with rfl
        exact le_max_left 1 rawDist
    · intro q hq
      exact h.2 q (PulsePool.get_snd_subset st.pool q hq)
  · refine ⟨h.1, ?_⟩
    intro q hq
    rcases List.mem_cons.1 hq with rfl | hq
    · rfl
    · exact h.2 q (PulsePool.get_snd_subset st.pool q hq)
  · exact h

/-- The advance loop preserves the distance invariant. -/
theorem advancePulses_dist (tInc : ℚ) (ps : List Pulse) (pool : PulsePool)
    (hps : ∀ p ∈ ps, 1 ≤ p.dist) (hpool : ∀ q ∈ pool.pool, q.dist = 1) :
    (∀ p ∈ (advancePulses tInc ps pool).1, 1 ≤ p.dist) ∧
      ∀ q ∈ (advancePulses tInc ps pool).2.pool, q.dist = 1 := by
  have key : ∀ (l : List Pulse) (acc : List Pulse × PulsePool),
      (∀ p ∈ l, 1 ≤ p.dist) →
      (∀ p ∈ acc.1, 1 ≤ p.dist) → (∀ q ∈ acc.2.pool, q.dist = 1) →
      (∀ p ∈ (l.foldl (advanceStep tInc) acc).1, 1 ≤ p.dist) ∧
        ∀ q ∈ (l.foldl (advanceStep tInc) acc).2.pool, q.dist = 1 := by
    intro l
    induction l with
    | nil => exact fun acc _ h1 h2 => ⟨h1, h2⟩
    | cons p rest ih =>
      intro acc hl h1 h2
      rw [List.foldl_cons]
      have hp := hl p (List.mem_cons_self p rest)
      have hrest : ∀ x ∈ rest, 1 ≤ x.dist := fun x hx => hl x (List.mem_cons_of_mem p hx)
      refine ih _ hrest ?_ ?_
      · intro x hx
        rw [advanceStep] at hx
        split_ifs at hx
        · exact h1 x hx
        · exact h1 x hx
        · rcases List.mem_append.1 hx with hx | hx
          · exact h1 x hx
          · rcases List.mem_singleton.1 hx with rfl
            exact hp
      · intro q hq
        rw [advanceStep] at hq
        split_ifs at hq
        · exact h2 q hq
        · rcases List.mem_cons.1 hq with rfl | hq
          · rfl
          · exact h2 q hq
        · exact h2 q hq
  exact key ps ([], pool) hps (by simp) hpool

/-- The distance invariant holds in every reachable pulse state. -/
theorem pulseRun_dist (evts : List PEvent) :
    (∀ p ∈ (pulseRun evts).pulses, 1 ≤ p.dist) ∧
      ∀ q ∈ (pulseRun evts).pool.pool, q.dist = 1 := by
  rw [pulseRun]
  have hinit : (∀ p ∈ pulseInit.pulses, 1 ≤ p.dist) ∧
      ∀ q ∈ pulseInit.pool.pool, q.dist = 1 := by
    constructor
    · intro p hp
      exact absurd hp (List.not_mem_nil p)
    · intro q hq
      rw [List.eq_of_mem_replicate hq]
      rfl
  generalize pulseInit = st0 at hinit
  induction evts generalizing st0 with
  | nil => exact hinit
  | cons e rest ih =>
    refine ih _ ?_
    cases e with
    | tick dt_ms now dynLinks linksLen pickDyn pickAll rawDist =>
      have hsp := @spawnPhase_dist st0 now dynLinks linksLen pickDyn pickAll rawDist hinit
      exact advancePulses_dist (PULSE_SPEED * (dt_ms / 1000)) _ _ hsp.1 hsp.2
    | resize kL => exact hinit

/-- Iterating the advance step adds `n · tInc/dist` to `t` and keeps the
cached distance. -/
theorem advancePulse_iterate (tInc : ℚ) (p : Pulse) (n : ℕ) :
    ((advancePulse tInc)^[n] p).t = p.t + n * (tInc / p.dist) ∧
      ((advancePulse tInc)^[n] p).dist = p.dist := by
  induction n with
  | zero => simp
  | succ m ih =>
    rw [Function.iterate_succ_apply']
    constructor
    · show ((advancePulse tInc)^[m] p).t +
        tInc / ((advancePulse tInc)^[m] p).dist = _
      rw [ih.1, ih.2]
      push_cast
      ring
    · show ((advancePulse tInc)^[m] p).dist = p.dist
      exact ih.2

/-- Claim C10 — Implicit pulse-advance safety: (a) in every reachable
state, every live pulse's cached edge length `dist` is at least 1 and
every pooled object's is exactly 1 (the `max(1, …)` at spawn and the
pool's reset/creation value); hence (b) the per-tick increment
`tInc / dist` is well-defined (the divisor is nonzero) and `t` strictly
increases each tick, and (c) iterated advancing reaches `t ≥ 1` after
finitely many ticks, at which point (d) the advance loop releases the
pulse back to the pool instead of keeping it. -/
theorem claim_C10_pulse_dist_safety :
    (∀ evts : List PEvent,
      (∀ p ∈ (pulseRun evts).pulses, 1 ≤ p.dist) ∧
        ∀ q ∈ (pulseRun evts).pool.pool, q.dist = 1) ∧
    (∀ (tInc : ℚ) (p : Pulse), 0 < tInc → 1 ≤ p.dist →
      p.dist ≠ 0 ∧ p.t < (advancePulse tInc p).t) ∧
    (∀ (tInc : ℚ) (p : Pulse), 0 < tInc → 1 ≤ p.dist →
      ∃ n : ℕ, 1 ≤ ((advancePulse tInc)^[n] p).t) ∧
    (∀ (tInc : ℚ) (acc : List Pulse × PulsePool) (p : Pulse),
      p.active = true → 1 ≤ (advancePulse tInc p).t →
      advanceStep tInc acc p = (acc.1, acc.2.release (advancePulse tInc p))) := by
  refine ⟨pulseRun_dist, ?_, ?_, ?_⟩
  · intro tInc p htInc hdist
    have hd0 : (0 : ℚ) < p.dist := by linarith
    refine ⟨ne_of_gt hd0, ?_⟩
    show p.t < p.t + tInc / p.dist
    have : 0 < tInc / p.dist := div_pos htInc hd0
    linarith
  · intro tInc p htInc hdist
    have hd0 : (0 : ℚ) < p.dist := by linarith
    have hinc : 0 < tInc / p.dist := div_pos htInc hd0
    obtain ⟨n, hn⟩ := exists_nat_ge ((1 - p.t) / (tInc / p.dist))
    refine ⟨n, ?_⟩
    rw [(advancePulse_iterate tInc p n).1]
    rw [div_le_iff₀ hinc] at hn
    linarith
  · intro tInc acc p hact harr
    rw [advanceStep, if_neg (by rw [hact]; exact (by decide : (true : Bool) ≠ false)), if_pos harr]

set_option allowUnsafeReducibility true in
attribute [local semireducible] Rat.add Rat.mul Rat.sub Rat.neg Rat.inv Rat.floor Rat.ceil in
/-- Witness for C10: a concrete pulse with `dist = 2` strictly advances
under `tInc = 1`, eventually arrives, and a concrete arrived pulse is
released by the advance step. -/
theorem claim_C10_witness :
    ((⟨0, 0, true, 2⟩ : Pulse).dist ≠ 0 ∧
      (⟨0, 0, true, 2⟩ : Pulse).t < (advancePulse 1 ⟨0, 0, true, 2⟩).t) ∧
    (∃ n : ℕ, 1 ≤ ((advancePulse 1)^[n] (⟨0, 0, true, 2⟩ : Pulse)).t) ∧
    advanceStep 1 ([], ⟨[]⟩) ⟨0, 1, true, 1⟩ =
      (([] : List Pulse), (⟨[]⟩ : PulsePool).release (advancePulse 1 ⟨0, 1, true, 1⟩)) :=
  ⟨claim_C10_pulse_dist_safety.2.1 1 ⟨0, 0, true, 2⟩ (by decide) (by decide),
    claim_C10_pulse_dist_safety.2.2.1 1 ⟨0, 0, true, 2⟩ (by decide) (by decide),
    claim_C10_pulse_dist_safety.2.2.2 1 ([], ⟨[]⟩) ⟨0, 1, true, 1⟩ rfl (by decide)⟩

/-!
## Resize continuity (claim C9)
-/

/-- The reflow branch taken when target counts are unchanged: a pure
uniform rescale of every position and origin, no resampling. -/
theorem resizeReflow_scale (w h prevW prevH : ℚ) (nodes : List RNode) (bgNodes : List Pt)
    (resampledNodes : List RNode) (resampledBg : List Pt)
    (hn : nodes.length ≠ 0)
    (hcount : (nodes.length : ℤ) = targetNodeCount w h)
    (hbg : (bgNodes.length : ℤ) = targetBgCount w h)
    (hpw : prevW ≠ 0) (hph : prevH ≠ 0) :
    resizeReflow false w h prevW prevH nodes bgNodes resampledNodes resampledBg =
      (nodes.map fun n =>
        ⟨n.x * (w / prevW), n.y * (h / prevH), n.ox * (w / prevW), n.oy * (h / prevH)⟩,
       bgNodes.map fun b => ⟨b.x * (w / prevW), b.y * (h / prevH)⟩) := by
  have hnr : ¬(false = true ∨ nodes.length = 0 ∨
      (nodes.length : ℤ) ≠ targetNodeCount w h ∨
      (bgNodes.length : ℤ) ≠ targetBgCount w h) := by
    push_neg
    exact ⟨Bool.false_ne_true, hn, hcount, hbg⟩
  simp only [resizeReflow]
  rw [if_pos ⟨hnr, hn⟩]
  simp only [if_neg hpw, if_neg hph]

/-- Claim C9 — Resize continuity: for every resize whose new viewport
dimensions leave the target foreground and background node counts
unchanged (and which is not the constructor's first call), the resize
multiplies every existing node's position and origin exactly by
`newWidth / prevWidth` in x and `newHeight / prevHeight` in y — no
resampling of the node population — and then rebuilds only the edge
sets, from the rescaled positions. -/
theorem claim_C9_resize_continuity (w h prevW prevH : ℚ) (nodes : List RNode)
    (bgNodes : List Pt) (resampledNodes : List RNode) (resampledBg : List Pt)
    (flags : List Bool) (maxDist bgMaxDist : ℚ) (cmp : ℕ → Cand → Cand → Bool)
    (bgCmp : BgEdge → BgEdge → Bool) (order : List ℕ)
    (hn : nodes.length ≠ 0)
    (hcount : (nodes.length : ℤ) = targetNodeCount w h)
    (hbg : (bgNodes.length : ℤ) = targetBgCount w h)
    (hpw : prevW ≠ 0) (hph : prevH ≠ 0) :
    (resizeStep false w h prevW prevH nodes bgNodes resampledNodes resampledBg flags
        maxDist bgMaxDist cmp bgCmp order).nodes =
      (nodes.map fun n =>
        ⟨n.x * (w / prevW), n.y * (h / prevH), n.ox * (w / prevW), n.oy * (h / prevH)⟩) ∧
    (resizeStep false w h prevW prevH nodes bgNodes resampledNodes resampledBg flags
        maxDist bgMaxDist cmp bgCmp order).bgNodes =
      (bgNodes.map fun b => ⟨b.x * (w / prevW), b.y * (h / prevH)⟩) ∧
    (resizeStep false w h prevW prevH nodes bgNodes resampledNodes resampledBg flags
        maxDist bgMaxDist cmp bgCmp order).nodes.length = nodes.length ∧
    (resizeStep false w h prevW prevH nodes bgNodes resampledNodes resampledBg flags
        maxDist bgMaxDist cmp bgCmp order).bgNodes.length = bgNodes.length ∧
    (resizeStep false w h prevW prevH nodes bgNodes resampledNodes resampledBg flags
        maxDist bgMaxDist cmp bgCmp order).links =
      buildLinks ((resizeStep false w h prevW prevH nodes bgNodes resampledNodes
        resampledBg flags maxDist bgMaxDist cmp bgCmp order).nodes.map RNode.pt)
        flags maxDist cmp order ∧
    (resizeStep false w h prevW prevH nodes bgNodes resampledNodes resampledBg flags
        maxDist bgMaxDist cmp bgCmp order).bgLinks =
      buildBgLinks (resizeStep false w h prevW prevH nodes bgNodes resampledNodes
        resampledBg flags maxDist bgMaxDist cmp bgCmp order).bgNodes bgMaxDist bgCmp := by
  have hreflow := resizeReflow_scale w h prevW prevH nodes bgNodes resampledNodes
    resampledBg hn hcount hbg hpw hph
  have h1 : (resizeStep false w h prevW prevH nodes bgNodes resampledNodes resampledBg
      flags maxDist bgMaxDist cmp bgCmp order).nodes =
      (resizeReflow false w h prevW prevH nodes bgNodes resampledNodes resampledBg).1 := rfl
  have h2 : (resizeStep false w h prevW prevH nodes bgNodes resampledNodes resampledBg
      flags maxDist bgMaxDist cmp bgCmp order).bgNodes =
      (resizeReflow false w h prevW prevH nodes bgNodes resampledNodes resampledBg).2 := rfl
  refine ⟨?_, ?_, ?_, ?_, rfl, rfl⟩
  · rw [h1, hreflow]
  · rw [h2, hreflow]
  · rw [h1, hreflow]
    exact List.length_map _ _
  · rw [h2, hreflow]
    exact List.length_map _ _

set_option allowUnsafeReducibility true in
attribute [local semireducible] Rat.add Rat.mul Rat.sub Rat.neg Rat.inv Rat.floor Rat.ceil in
/-- Witness for C9: a 100×100 viewport (target counts 16 and 12) resized
from 200×50, with matching populations, rescales them in place. -/
theorem claim_C9_witness :
    (resizeStep false 100 100 200 50 (List.replicate 16 ⟨2, 4, 2, 4⟩)
        (List.replicate 12 ⟨6, 8⟩) [] [] [] 0 0 (fun _ _ _ => true) (fun _ _ => true)
        []).nodes =
      ((List.replicate 16 (⟨2, 4, 2, 4⟩ : RNode)).map fun n =>
        ⟨n.x * (100 / 200), n.y * (100 / 50), n.ox * (100 / 200), n.oy * (100 / 50)⟩) :=
  (claim_C9_resize_continuity 100 100 200 50 (List.replicate 16 ⟨2, 4, 2, 4⟩)
    (List.replicate 12 ⟨6, 8⟩) [] [] [] 0 0 (fun _ _ _ => true) (fun _ _ => true) []
    (by decide) (by decide) (by decide) (by decide) (by decide)).1

end NNAnim
